import Mathlib

/-!
Verification development for the notebook
Chapter3-GPs/extras/Example-5-MC-GP-IRS-CVA.ipynb.

The notebook is a single linear Python script.  We embed its numeric
pipeline shallowly: Python/numpy floats become exact rationals, numpy
arrays become lists (or index functions for the pre-simulated data
cubes), and the two sources of randomness (np.random.choice) become an
arbitrary stream of naturals, so every theorem quantifies over all
random draws.  Division on rationals is total with x / 0 = 0; every
claim that touches a quotient carries the positivity hypothesis the
source guarantees.
-/

/-- Minimum of a list of rationals (np.min of a nonempty 1-d array). -/
def listMin : List ℚ → ℚ
  | [] => 0
  | x :: t =>
    match t with
    | [] => x
    | y :: t' => min x (listMin (y :: t'))

/-- Maximum of a list of rationals (np.max of a nonempty 1-d array). -/
def listMax : List ℚ → ℚ
  | [] => 0
  | x :: t =>
    match t with
    | [] => x
    | y :: t' => max x (listMax (y :: t'))

/-- First index attaining the minimum (np.argmin on a 1-d array). -/
def argminL : List ℚ → ℕ
  | [] => 0
  | x :: t =>
    match t with
    | [] => 0
    | y :: t' =>
      let a := argminL (y :: t')
      if x ≤ (y :: t').getD a 0 then 0 else a + 1

/-- First index attaining the maximum (np.argmax on a 1-d array). -/
def argmaxL : List ℚ → ℕ
  | [] => 0
  | x :: t =>
    match t with
    | [] => 0
    | y :: t' =>
      let a := argmaxL (y :: t')
      if (y :: t').getD a 0 ≤ x then 0 else a + 1

theorem listMin_le_mem : ∀ (l : List ℚ), ∀ x ∈ l, listMin l ≤ x := by
  intro l
  induction l with
  | nil => intro x hx; simp at hx
  | cons a t ih =>
    intro x hx
    rw [List.mem_cons] at hx
    cases t with
    | nil =>
      rcases hx with rfl | h
      · simp [listMin]
      · simp at h
    | cons y t' =>
      have hstep : listMin (a :: y :: t') = min a (listMin (y :: t')) := rfl
      rcases hx with rfl | h
      · rw [hstep]; exact min_le_left _ _
      · rw [hstep]; exact le_trans (min_le_right _ _) (ih x h)

theorem le_listMax_mem : ∀ (l : List ℚ), ∀ x ∈ l, x ≤ listMax l := by
  intro l
  induction l with
  | nil => intro x hx; simp at hx
  | cons a t ih =>
    intro x hx
    rw [List.mem_cons] at hx
    cases t with
    | nil =>
      rcases hx with rfl | h
      · simp [listMax]
      · simp at h
    | cons y t' =>
      have hstep : listMax (a :: y :: t') = max a (listMax (y :: t')) := rfl
      rcases hx with rfl | h
      · rw [hstep]; exact le_max_left _ _
      · rw [hstep]; exact le_trans (ih x h) (le_max_right _ _)

theorem le_listMin : ∀ (l : List ℚ) (a : ℚ), l ≠ [] → (∀ x ∈ l, a ≤ x) →
    a ≤ listMin l := by
  intro l
  induction l with
  | nil => intro a h _; exact absurd rfl h
  | cons x t ih =>
    intro a _ hall
    cases t with
    | nil => simpa [listMin] using hall x (by simp)
    | cons y t' =>
      have h1 : a ≤ x := hall x (by simp)
      have h2 : a ≤ listMin (y :: t') :=
        ih a (by simp) (fun z hz => hall z (by simp [hz]))
      simp [listMin, le_min_iff]
      exact ⟨h1, h2⟩

theorem listMax_le : ∀ (l : List ℚ) (a : ℚ), l ≠ [] → (∀ x ∈ l, x ≤ a) →
    listMax l ≤ a := by
  intro l
  induction l with
  | nil => intro a h _; exact absurd rfl h
  | cons x t ih =>
    intro a _ hall
    cases t with
    | nil => simpa [listMax] using hall x (by simp)
    | cons y t' =>
      have h1 : x ≤ a := hall x (by simp)
      have h2 : listMax (y :: t') ≤ a :=
        ih a (by simp) (fun z hz => hall z (by simp [hz]))
      simp [listMax, max_le_iff]
      exact ⟨h1, h2⟩

theorem argminL_lt : ∀ (l : List ℚ), l ≠ [] → argminL l < l.length := by
  intro l
  induction l with
  | nil => intro h; exact absurd rfl h
  | cons x t ih =>
    intro _
    cases t with
    | nil => simp [argminL]
    | cons y t' =>
      have h := ih (by simp)
      have hdef : argminL (x :: y :: t') =
          if x ≤ (y :: t').getD (argminL (y :: t')) 0 then 0
          else argminL (y :: t') + 1 := rfl
      rw [hdef]
      by_cases hc : x ≤ (y :: t').getD (argminL (y :: t')) 0
      · rw [if_pos hc]; simp
      · rw [if_neg hc]
        simp only [List.length_cons] at h ⊢
        omega

theorem argmaxL_lt : ∀ (l : List ℚ), l ≠ [] → argmaxL l < l.length := by
  intro l
  induction l with
  | nil => intro h; exact absurd rfl h
  | cons x t ih =>
    intro _
    cases t with
    | nil => simp [argmaxL]
    | cons y t' =>
      have h := ih (by simp)
      have hdef : argmaxL (x :: y :: t') =
          if (y :: t').getD (argmaxL (y :: t')) 0 ≤ x then 0
          else argmaxL (y :: t') + 1 := rfl
      rw [hdef]
      by_cases hc : (y :: t').getD (argmaxL (y :: t')) 0 ≤ x
      · rw [if_pos hc]; simp
      · rw [if_neg hc]
        simp only [List.length_cons] at h ⊢
        omega

theorem argminL_getD : ∀ (l : List ℚ), l ≠ [] →
    l.getD (argminL l) 0 = listMin l := by
  intro l
  induction l with
  | nil => intro h; exact absurd rfl h
  | cons x t ih =>
    intro _
    cases t with
    | nil => simp [argminL, listMin]
    | cons y t' =>
      have hv := ih (by simp)
      have hdef : argminL (x :: y :: t') =
          if x ≤ (y :: t').getD (argminL (y :: t')) 0 then 0
          else argminL (y :: t') + 1 := rfl
      have hm : listMin (x :: y :: t') = min x (listMin (y :: t')) := rfl
      by_cases hc : x ≤ (y :: t').getD (argminL (y :: t')) 0
      · have hx : x ≤ listMin (y :: t') := by rw [← hv]; exact hc
        rw [hdef, if_pos hc, hm, List.getD_cons_zero, min_eq_left hx]
      · have hlt : listMin (y :: t') ≤ x := by
          rw [← hv]; exact le_of_not_le hc
        rw [hdef, if_neg hc, hm, List.getD_cons_succ, hv, min_eq_right hlt]

theorem argmaxL_getD : ∀ (l : List ℚ), l ≠ [] →
    l.getD (argmaxL l) 0 = listMax l := by
  intro l
  induction l with
  | nil => intro h; exact absurd rfl h
  | cons x t ih =>
    intro _
    cases t with
    | nil => simp [argmaxL, listMax]
    | cons y t' =>
      have hv := ih (by simp)
      have hdef : argmaxL (x :: y :: t') =
          if (y :: t').getD (argmaxL (y :: t')) 0 ≤ x then 0
          else argmaxL (y :: t') + 1 := rfl
      have hm : listMax (x :: y :: t') = max x (listMax (y :: t')) := rfl
      by_cases hc : (y :: t').getD (argmaxL (y :: t')) 0 ≤ x
      · have hx : listMax (y :: t') ≤ x := by rw [← hv]; exact hc
        rw [hdef, if_pos hc, hm, List.getD_cons_zero, max_eq_left hx]
      · have hlt : x ≤ listMax (y :: t') := by
          rw [← hv]; exact le_of_not_le hc
        rw [hdef, if_neg hc, hm, List.getD_cons_succ, hv, max_eq_right hlt]

theorem List.getD_set_eq' {α : Type} [Inhabited α] :
    ∀ (l : List α) (n : ℕ) (a d : α), n < l.length →
      (l.set n a).getD n d = a := by
  intro l
  induction l with
  | nil => intro n a d h; simp at h
  | cons x t ih =>
    intro n a d h
    cases n with
    | zero => simp [List.set, List.getD]
    | succ m =>
      simp only [List.set, List.getD_cons_succ]
      exact ih m a d (by simpa using h)

theorem List.getD_set_ne' {α : Type} [Inhabited α] :
    ∀ (l : List α) (n m : ℕ) (a d : α), n ≠ m →
      (l.set n a).getD m d = l.getD m d := by
  intro l
  induction l with
  | nil => intro n m a d h; simp [List.set]
  | cons x t ih =>
    intro n m a d h
    cases n with
    | zero =>
      cases m with
      | zero => exact absurd rfl h
      | succ k => simp [List.set, List.getD]
    | succ n' =>
      cases m with
      | zero => simp [List.set, List.getD]
      | succ k =>
        simp only [List.set, List.getD_cons_succ]
        exact ih n' k a d (by omega)

/-! ## Sorting and numpy quantiles -/

/-- Insertion into a sorted list of rationals. -/
def insertQ (x : ℚ) : List ℚ → List ℚ
  | [] => [x]
  | y :: t => if x ≤ y then x :: y :: t else y :: insertQ x t

/-- Insertion sort (ascending), the order np.quantile sorts by. -/
def sortQ : List ℚ → List ℚ
  | [] => []
  | x :: t => insertQ x (sortQ t)

/-- Floor of a nonnegative rational as a natural number (numpy uses the
mathematical floor of the fractional index; Int.fdiv rounds toward
negative infinity, matching it). -/
def ratFloorNat (q : ℚ) : ℕ := (q.num.fdiv (q.den : ℤ)).toNat

/-- np.quantile with the default linear interpolation on a 1-d array. -/
def npQuantile (l : List ℚ) (p : ℚ) : ℚ :=
  let s := sortQ l
  let n := l.length
  let h : ℚ := p * ((n : ℚ) - 1)
  let i : ℕ := ratFloorNat h
  let g : ℚ := h - (i : ℚ)
  let a := s.getD i 0
  let b := s.getD (i + 1) a
  a + g * (b - a)

/-- The quantile grid [0, 0.25, 0.5, 0.75, 1] used by stratified_sampling. -/
def quartiles : List ℚ := [0, 1/4, 1/2, 3/4, 1]

/-! ## stratified_sampling (the dim == 2 branch of the source)

The source takes a 2-column array ar; we model it as a list of pairs.
np.random.choice draws become reads of an arbitrary stream
rng : ℕ → ℕ, reduced modulo the bucket size, so "sample with
replacement" means: every drawn element is some element of the bucket.
An empty bucket makes np.random.choice raise ValueError; the numpy
slice assignments idx[0:2] = ..., idx[2:4] = ... raise ValueError when
fewer than 4 indices were collected.  Both failure modes are modelled
with Except. -/

inductive PyErr where
  | nameError : String → PyErr
  | valueError : PyErr
  | indexError : PyErr
deriving DecidableEq

/-- Column of first components of a 2-column array. -/
def colFst (ar : List (ℚ × ℚ)) : List ℚ := ar.map Prod.fst

/-- Column of second components of a 2-column array. -/
def colSnd (ar : List (ℚ × ℚ)) : List ℚ := ar.map Prod.snd

/-- Quartile i of the first column: q[i, 0] in the source. -/
def qFst (ar : List (ℚ × ℚ)) (i : ℕ) : ℚ :=
  npQuantile (colFst ar) (quartiles.getD i 0)

/-- Quartile j of the second column: q[j, 1] in the source. -/
def qSnd (ar : List (ℚ × ℚ)) (j : ℕ) : ℚ :=
  npQuantile (colSnd ar) (quartiles.getD j 0)

/-- Row indices falling in quartile bucket (i, j): the np.where filter
of the source, in ascending order exactly as np.where returns them. -/
def bucketIdx (ar : List (ℚ × ℚ)) (i j : ℕ) : List ℕ :=
  (List.range ar.length).filter (fun m =>
    let r := ar.getD m (0, 0)
    decide (qFst ar i ≤ r.1) && decide (r.1 ≤ qFst ar (i + 1)) &&
    decide (qSnd ar j ≤ r.2) && decide (r.2 ≤ qSnd ar (j + 1)))

/-- np.random.choice(l, n): n draws with replacement, driven by the
stream rng starting at counter c. -/
def npChoice (l : List ℕ) (n : ℕ) (rng : ℕ → ℕ) (c : ℕ) : List ℕ :=
  (List.range n).map (fun t => l.getD (rng (c + t) % l.length) 0)

/-- One bucket's contribution: truncate to ns when the bucket has more
rows, resample with replacement otherwise; empty bucket raises. -/
def segmentFor (ns : ℕ) (rng : ℕ → ℕ) (c : ℕ) (bkt : List ℕ) :
    Except PyErr (List ℕ) :=
  if ns < bkt.length then .ok (bkt.take ns)
  else if 0 < bkt.length then .ok (npChoice bkt ns rng c)
  else .error .valueError

/-- The 16 per-bucket contributions, in the source's (i, j) loop order. -/
def stratSegs (ar : List (ℚ × ℚ)) (M : ℕ) (rng : ℕ → ℕ) :
    List (Except PyErr (List ℕ)) :=
  let ns := M / 16
  (List.range 4).bind (fun i => (List.range 4).map (fun j =>
    segmentFor ns rng ((4 * i + j) * ns) (bucketIdx ar i j)))

/-- np.append accumulation of the per-bucket index segments; the first
raising bucket aborts the run, as in the source. -/
def collectSegs : List (Except PyErr (List ℕ)) → Except PyErr (List ℕ)
  | [] => .ok []
  | e :: t =>
    match e with
    | .error x => .error x
    | .ok s =>
      match collectSegs t with
      | .error x => .error x
      | .ok r => .ok (s ++ r)

/-- idx[0:dim] = np.argmin(ar, axis=0); idx[dim:2*dim] = np.argmax(ar,
axis=0) for dim = 2; numpy raises when idx holds fewer than 4 entries. -/
def ensureMinMax2 (ar : List (ℚ × ℚ)) (idx : List ℕ) :
    Except PyErr (List ℕ) :=
  if idx.length < 4 then .error .valueError
  else .ok ((((idx.set 0 (argminL (colFst ar))).set 1
      (argminL (colSnd ar))).set 2
      (argmaxL (colFst ar))).set 3 (argmaxL (colSnd ar)))

/-- stratified_sampling(ar, M) for a 2-column ar. -/
def stratSample2 (ar : List (ℚ × ℚ)) (M : ℕ) (rng : ℕ → ℕ) :
    Except PyErr (List ℕ) :=
  match collectSegs (stratSegs ar M rng) with
  | .error e => .error e
  | .ok idx => ensureMinMax2 ar idx

theorem segmentFor_ok (ns c : ℕ) (rng : ℕ → ℕ) (bkt : List ℕ)
    (h : bkt ≠ []) :
    ∃ s, segmentFor ns rng c bkt = .ok s ∧ s.length = ns ∧
      ∀ e ∈ s, e ∈ bkt := by
  by_cases hc : ns < bkt.length
  · refine ⟨bkt.take ns, by simp [segmentFor, hc], ?_, ?_⟩
    · simp [List.length_take]; omega
    · intro e he; exact List.mem_of_mem_take he
  · have hpos : 0 < bkt.length := List.length_pos.mpr h
    refine ⟨npChoice bkt ns rng c, by simp [segmentFor, hc, hpos], ?_, ?_⟩
    · simp [npChoice]
    · intro e he
      simp only [npChoice, List.mem_map] at he
      obtain ⟨t, _, rfl⟩ := he
      have hm : rng (c + t) % bkt.length < bkt.length :=
        Nat.mod_lt _ hpos
      rw [List.getD_eq_getElem _ _ hm]
      exact List.getElem_mem _

theorem collectSegs_ok (P : ℕ → Prop) (ns : ℕ) :
    ∀ (L : List (Except PyErr (List ℕ))),
      (∀ e ∈ L, ∃ s, e = .ok s ∧ s.length = ns ∧ ∀ x ∈ s, P x) →
      ∃ l, collectSegs L = .ok l ∧ l.length = L.length * ns ∧
        ∀ x ∈ l, P x := by
  intro L
  induction L with
  | nil => intro _; exact ⟨[], rfl, by simp, by simp⟩
  | cons e t ih =>
    intro h
    obtain ⟨s, rfl, hs, hPs⟩ := h e (by simp)
    obtain ⟨r, hr, hrl, hPr⟩ := ih (fun x hx => h x (by simp [hx]))
    refine ⟨s ++ r, ?_, ?_, ?_⟩
    · simp [collectSegs, hr]
    · simp [hs, hrl]; ring
    · intro x hx
      rcases List.mem_append.mp hx with h' | h'
      · exact hPs x h'
      · exact hPr x h'

theorem bucketIdx_lt (ar : List (ℚ × ℚ)) (i j : ℕ) :
    ∀ e ∈ bucketIdx ar i j, e < ar.length := by
  intro e he
  have h := List.mem_filter.mp he
  exact List.mem_range.mp h.1

theorem bucket_nonempty_ar_pos (ar : List (ℚ × ℚ)) (i j : ℕ)
    (h : bucketIdx ar i j ≠ []) : 0 < ar.length := by
  obtain ⟨e, he⟩ := List.exists_mem_of_ne_nil _ h
  exact Nat.lt_of_le_of_lt (Nat.zero_le e) (bucketIdx_lt ar i j e he)

theorem stratSegs_mem (ar : List (ℚ × ℚ)) (M : ℕ) (rng : ℕ → ℕ) :
    ∀ e ∈ stratSegs ar M rng, ∃ i, i < 4 ∧ ∃ j, j < 4 ∧
      e = segmentFor (M / 16) rng ((4 * i + j) * (M / 16)) (bucketIdx ar i j) := by
  intro e he
  simp only [stratSegs, List.mem_bind, List.mem_map, List.mem_range] at he
  obtain ⟨i, hi, j, hj, rfl⟩ := he
  exact ⟨i, hi, j, hj, rfl⟩

theorem stratSegs_length (ar : List (ℚ × ℚ)) (M : ℕ) (rng : ℕ → ℕ) :
    (stratSegs ar M rng).length = 16 := by
  have h4 : List.range 4 = [0, 1, 2, 3] := by decide
  simp [stratSegs, h4]

/-- C6. For a 2-column input array whose 16 pairwise quartile buckets are
all non-empty and M at least 16, stratified_sampling contributes exactly
floor(M/16) row indices per quartile bucket (truncating larger buckets,
resampling with replacement from smaller ones) and returns an index array
of length exactly 16 * floor(M/16), every entry of which is a valid row
index of the input array. -/
theorem C6_stratified_counts (ar : List (ℚ × ℚ)) (M : ℕ) (rng : ℕ → ℕ)
    (hM : 16 ≤ M)
    (hbk : ∀ i < 4, ∀ j < 4, bucketIdx ar i j ≠ []) :
    (∀ i < 4, ∀ j < 4, ∃ s,
        segmentFor (M / 16) rng ((4 * i + j) * (M / 16)) (bucketIdx ar i j) =
          .ok s ∧
        s.length = M / 16 ∧ ∀ e ∈ s, e ∈ bucketIdx ar i j) ∧
    ∃ l, stratSample2 ar M rng = .ok l ∧ l.length = 16 * (M / 16) ∧
      ∀ e ∈ l, e < ar.length := by
  have hns : 1 ≤ M / 16 := (Nat.one_le_div_iff (by norm_num)).mpr hM
  have harpos : 0 < ar.length :=
    bucket_nonempty_ar_pos ar 0 0 (hbk 0 (by norm_num) 0 (by norm_num))
  constructor
  · intro i hi j hj
    exact segmentFor_ok _ _ _ _ (hbk i hi j hj)
  · obtain ⟨l0, hcol, hlen0, hval0⟩ :=
      collectSegs_ok (fun x => x < ar.length) (M / 16) (stratSegs ar M rng)
        (by
          intro e he
          obtain ⟨i, hi, j, hj, rfl⟩ := stratSegs_mem ar M rng e he
          obtain ⟨s, hok, hsl, hmem⟩ := segmentFor_ok _ _ _ _ (hbk i hi j hj)
          exact ⟨s, hok, hsl, fun x hx => bucketIdx_lt ar i j x (hmem x hx)⟩)
    rw [stratSegs_length] at hlen0
    have hl4 : ¬ l0.length < 4 := by omega
    have hfst_ne : colFst ar ≠ [] := by
      simp [colFst, List.map_eq_nil]
      intro hnil
      rw [hnil] at harpos
      simp at harpos
    have hsnd_ne : colSnd ar ≠ [] := by
      simp [colSnd, List.map_eq_nil]
      intro hnil
      rw [hnil] at harpos
      simp at harpos
    refine ⟨(((l0.set 0 (argminL (colFst ar))).set 1
        (argminL (colSnd ar))).set 2
        (argmaxL (colFst ar))).set 3 (argmaxL (colSnd ar)), ?_, ?_, ?_⟩
    · unfold stratSample2
      rw [hcol]
      show ensureMinMax2 ar l0 = _
      unfold ensureMinMax2
      rw [if_neg hl4]
    · simp [List.length_set, hlen0]
    · intro e he
      have hmin1 : argminL (colFst ar) < ar.length := by
        have := argminL_lt (colFst ar) hfst_ne
        simpa [colFst] using this
      have hmin2 : argminL (colSnd ar) < ar.length := by
        have := argminL_lt (colSnd ar) hsnd_ne
        simpa [colSnd] using this
      have hmax1 : argmaxL (colFst ar) < ar.length := by
        have := argmaxL_lt (colFst ar) hfst_ne
        simpa [colFst] using this
      have hmax2 : argmaxL (colSnd ar) < ar.length := by
        have := argmaxL_lt (colSnd ar) hsnd_ne
        simpa [colSnd] using this
      rcases List.mem_or_eq_of_mem_set he with he | rfl
      · rcases List.mem_or_eq_of_mem_set he with he | rfl
        · rcases List.mem_or_eq_of_mem_set he with he | rfl
          · rcases List.mem_or_eq_of_mem_set he with he | rfl
            · exact hval0 e he
            · exact hmin1
          · exact hmin2
        · exact hmax1
      · exact hmax2

instance {ε α : Type} [DecidableEq ε] [DecidableEq α] : DecidableEq (Except ε α) := fun x y =>
  match x, y with
  | .ok a, .ok b =>
    if h : a = b then .isTrue (by rw [h]) else .isFalse (fun hc => h (Except.ok.inj hc))
  | .error a, .error b =>
    if h : a = b then .isTrue (by rw [h]) else .isFalse (fun hc => h (Except.error.inj hc))
  | .ok _, .error _ => .isFalse (fun hc => Except.noConfusion hc)
  | .error _, .ok _ => .isFalse (fun hc => Except.noConfusion hc)

theorem npQuantile_single (c p : ℚ) : npQuantile [c] p = c := by
  simp [npQuantile, sortQ, insertQ, ratFloorNat]

theorem bucketIdx_single (c d : ℚ) (i j : ℕ) : bucketIdx [(c, d)] i j = [0] := by
  simp [bucketIdx, qFst, qSnd, colFst, colSnd, npQuantile_single,
    List.range_succ, List.range_zero, List.filter_cons, List.filter_nil]

theorem stratSample2_single :
    stratSample2 [((1:ℚ), 2)] 16 (fun _ => 0) =
      .ok [0, 0, 0, 0, 0, 0, 0, 0, 0, 0, 0, 0, 0, 0, 0, 0] := by
  have hb : ∀ i j : ℕ, bucketIdx [((1:ℚ), 2)] i j = [0] :=
    fun i j => bucketIdx_single 1 2 i j
  simp [stratSample2, stratSegs, hb, segmentFor, npChoice, collectSegs,
    ensureMinMax2, argminL, argmaxL, colFst, colSnd,
    List.range_succ]

/-- Witness for C6 at the concrete one-row array [(1, 2)] with M = 16. -/
theorem C6_stratified_counts_witness :
    (16 ≤ 16 ∧ (∀ i < 4, ∀ j < 4, bucketIdx [((1:ℚ), 2)] i j ≠ [])) ∧
    ((∀ i < 4, ∀ j < 4, ∃ s,
        segmentFor (16 / 16) (fun _ => 0) ((4 * i + j) * (16 / 16))
            (bucketIdx [((1:ℚ), 2)] i j) = .ok s ∧
        s.length = 16 / 16 ∧ ∀ e ∈ s, e ∈ bucketIdx [((1:ℚ), 2)] i j) ∧
      ∃ l, stratSample2 [((1:ℚ), 2)] 16 (fun _ => 0) = .ok l ∧
        l.length = 16 * (16 / 16) ∧
        ∀ e ∈ l, e < ([((1:ℚ), 2)] : List (ℚ × ℚ)).length) :=
  ⟨⟨le_refl 16, fun i _ j _ => by rw [bucketIdx_single]; simp⟩,
   C6_stratified_counts [((1:ℚ), 2)] 16 (fun _ => 0) (le_refl 16)
     (fun i _ j _ => by rw [bucketIdx_single]; simp)⟩

/-! ## The notebook's data model

The pre-simulated cubes loaded from .npz files are modelled as total
index functions: ratesFX i m p is rates_fx[i][m, p] (coarse step i,
scenario m, process p), prevFX the previous-reset-date slice
prev_rates_fx, and mtm i j m the simulated price mtm[i][j, m] of the
j-th portfolio instrument.  ccy k is irs_params[k][6] and portIdx the
port_idx array of the selected counterparty. -/

structure NotebookData where
  ccy : ℕ → ℕ
  portIdx : ℕ → ℕ
  ratesFX : ℕ → ℕ → ℕ → ℚ
  prevFX : ℕ → ℕ → ℕ → ℚ
  mtm : ℕ → ℕ → ℕ → ℚ

/-- irs_map: the domestic rate process 0 when the currency code is 0,
otherwise the foreign rate process ccy and the FX process ccy + 10. -/
def irsMap (c : ℕ) : List ℕ := if c = 0 then [0] else [c, c + 10]

/-- One row of the training/test input matrix for (step i, instrument
position j, scenario m): the source's rates_ row, with the extra leading
previous-reset-date value of the first mapped process when i > 0. -/
def factorsRow (d : NotebookData) (i j m : ℕ) : List ℚ :=
  let mp := irsMap (d.ccy (d.portIdx j))
  if 0 < i then d.prevFX i m (mp.headD 0) :: mp.map (fun p => d.ratesFX i m p)
  else mp.map (fun p => d.ratesFX i m p)

/-- rates_ of the training loop: all 2*Mg stored scenarios. -/
def trainMat (d : NotebookData) (Mg i j : ℕ) : List (List ℚ) :=
  (List.range (2 * Mg)).map (factorsRow d i j)

/-- Number of input columns for (i, j). -/
def dimOf (d : NotebookData) (i j : ℕ) : ℕ :=
  (irsMap (d.ccy (d.portIdx j))).length + if 0 < i then 1 else 0

/-- Column k of a row-major matrix. -/
def colOf (X : List (List ℚ)) (k : ℕ) : List ℚ := X.map (fun r => r.getD k 0)

/-- np.min(X, axis=0) at column k. -/
def colMin (X : List (List ℚ)) (k : ℕ) : ℚ := listMin (colOf X k)

/-- np.max(X, axis=0) at column k. -/
def colMax (X : List (List ℚ)) (k : ℕ) : ℚ := listMax (colOf X k)

/-- Row selection X[idx, :] (with multiplicity, numpy fancy indexing). -/
def selRows (X : List (List ℚ)) (idx : List ℕ) : List (List ℚ) :=
  idx.map (fun e => X.getD e [])

/-- The 1e-16 guard added to the input range in the training rescaling. -/
def epsTrain : ℚ := 1 / 10 ^ 16

/-- rates_sc_ = (rates_ - min) / (max - min + 1e-16), column by column. -/
def rescaleX (X : List (List ℚ)) (dim : ℕ) : List (List ℚ) :=
  X.map (fun r => (List.range dim).map (fun k =>
    (r.getD k 0 - colMin X k) / (colMax X k - colMin X k + epsTrain)))

/-- irs_prices = mtm[i][j, :] over all stored scenarios. -/
def pricesOf (d : NotebookData) (Mg i j : ℕ) : List ℚ :=
  (List.range (2 * Mg)).map (d.mtm i j)

/-- irs_prices_sc_: min/max rescaling of the targets, with the source's
degenerate-range fallback irs_prices - min. -/
def rescaleY (y : List ℚ) : List ℚ :=
  if listMax y - listMin y ≠ 0 then
    y.map (fun v => (v - listMin y) / (listMax y - listMin y))
  else y.map (fun v => v - listMin y)

/-- A fitted GP is identified by its training set (the kernel and
optimizer settings are fixed throughout the notebook). -/
structure FitData where
  X : List (List ℚ)
  y : List ℚ
deriving DecidableEq

/-- The per-(instrument, step) record stored in the portfolio dict:
fitted GP, weight, training-subset bounds 'min'/'max', full-sample
rescaling bounds 'min_sc_x'/'max_sc_x', and target bounds. -/
structure InstrSlot where
  gp : FitData
  w : ℚ
  lo : List ℚ
  hi : List ℚ
  loX : List ℚ
  hiX : List ℚ
  loY : ℚ
  hiY : ℚ
deriving DecidableEq

/-- The portfolio dict before the training loop (weight 1, dummy slots). -/
def initSlot : InstrSlot := ⟨⟨[], []⟩, 1, [], [], [], [], 0, 0⟩

/-- The body of one (i, j) training iteration: stratified sampling of
the input rows, min/max rescaling of inputs and targets, gp.fit on the
sampled rescaled pairs, and the stored bounds. -/
def fitSlot (d : NotebookData) (Mg : ℕ)
    (sampler : List (List ℚ) → ℕ → List ℕ) (Mt i j : ℕ) : InstrSlot :=
  let X := trainMat d Mg i j
  let dim := dimOf d i j
  let idx := sampler X Mt
  let Xsc := rescaleX X dim
  let y := pricesOf d Mg i j
  let ysc := rescaleY y
  { gp := ⟨idx.map (fun e => Xsc.getD e []), idx.map (fun e => ysc.getD e 0)⟩
    w := 1
    lo := (List.range dim).map (fun k => colMin (selRows X idx) k)
    hi := (List.range dim).map (fun k => colMax (selRows X idx) k)
    loX := (List.range dim).map (fun k => colMin X k)
    hiX := (List.range dim).map (fun k => colMax X k)
    loY := listMin y
    hiY := listMax y }

/-- Dict/array assignment portfolio[key][...][i] = v. -/
def update2 (P : ℕ → ℕ → InstrSlot) (key i : ℕ) (v : InstrSlot) :
    ℕ → ℕ → InstrSlot :=
  fun k' i' => if k' = key then (if i' = i then v else P k' i') else P k' i'

/-- The nested training loop: for i in range(nt), for j in range(20),
assign portfolio[port_idx[j]][...][i]. -/
def trainLoop (d : NotebookData) (Mg : ℕ)
    (sampler : List (List ℚ) → ℕ → List ℕ) (Mt nt : ℕ) : ℕ → ℕ → InstrSlot :=
  (List.range nt).foldl
    (fun P i => (List.range 20).foldl
      (fun P j => update2 P (d.portIdx j) i (fitSlot d Mg sampler Mt i j)) P)
    (fun _ _ => initSlot)

theorem foldl_update2_ne_row (pk : ℕ → ℕ) (g : ℕ → InstrSlot) (i : ℕ) :
    ∀ (L : List ℕ) (P : ℕ → ℕ → InstrSlot) (k' i' : ℕ), i' ≠ i →
      (L.foldl (fun P j => update2 P (pk j) i (g j)) P) k' i' = P k' i' := by
  intro L
  induction L with
  | nil => intro P k' i' _; rfl
  | cons a t ih =>
    intro P k' i' hne
    simp only [List.foldl_cons]
    rw [ih _ k' i' hne]
    unfold update2
    by_cases hk : k' = pk a
    · rw [if_pos hk, if_neg hne]
    · rw [if_neg hk]

theorem foldl_update2_ne_key (pk : ℕ → ℕ) (g : ℕ → InstrSlot) (i : ℕ) :
    ∀ (L : List ℕ) (P : ℕ → ℕ → InstrSlot) (k' i' : ℕ),
      (∀ b ∈ L, pk b ≠ k') →
      (L.foldl (fun P j => update2 P (pk j) i (g j)) P) k' i' = P k' i' := by
  intro L
  induction L with
  | nil => intro P k' i' _; rfl
  | cons a t ih =>
    intro P k' i' hk
    simp only [List.foldl_cons]
    rw [ih _ k' i' (fun b hb => hk b (by simp [hb]))]
    unfold update2
    rw [if_neg (fun hc => (hk a (by simp)) hc.symm)]

theorem foldl_update2_get (pk : ℕ → ℕ) (g : ℕ → InstrSlot) (i : ℕ) :
    ∀ (L : List ℕ) (P : ℕ → ℕ → InstrSlot) (j : ℕ), j ∈ L →
      (∀ a ∈ L, ∀ b ∈ L, pk a = pk b → a = b) → L.Nodup →
      (L.foldl (fun P j' => update2 P (pk j') i (g j')) P) (pk j) i = g j := by
  intro L
  induction L with
  | nil => intro P j hj; simp at hj
  | cons a t ih =>
    intro P j hj hinj hnd
    rw [List.mem_cons] at hj
    simp only [List.foldl_cons]
    rcases hj with rfl | hjt
    · -- j is the head; the tail never writes key pk j again
      have hanot : j ∉ t := (List.nodup_cons.mp hnd).1
      rw [foldl_update2_ne_key pk g i t _ (pk j) i
          (fun b hb hc => hanot (by
            have := hinj b (by simp [hb]) j (by simp) hc
            rwa [this] at hb))]
      simp [update2]
    · exact ih _ j hjt
        (fun x hx y hy => hinj x (by simp [hx]) y (by simp [hy]))
        (List.nodup_cons.mp hnd).2

theorem trainLoop_get (d : NotebookData) (Mg : ℕ)
    (sampler : List (List ℚ) → ℕ → List ℕ) (Mt : ℕ)
    (hinj : ∀ a < 20, ∀ b < 20, d.portIdx a = d.portIdx b → a = b) :
    ∀ (nt : ℕ), ∀ i < nt, ∀ j < 20,
      trainLoop d Mg sampler Mt nt (d.portIdx j) i =
        fitSlot d Mg sampler Mt i j := by
  intro nt
  induction nt with
  | zero => intro i hi; omega
  | succ n ihn =>
    intro i hi j hj
    unfold trainLoop
    rw [@List.range_succ n, List.foldl_append, List.foldl_cons, List.foldl_nil]
    by_cases hin : i = n
    · subst hin
      exact foldl_update2_get d.portIdx (fun j' => fitSlot d Mg sampler Mt i j')
        i (List.range 20) _ j (List.mem_range.mpr hj)
        (fun a ha b hb => hinj a (List.mem_range.mp ha) b (List.mem_range.mp hb))
        (List.nodup_range 20)
    · have hi' : i < n := by omega
      rw [foldl_update2_ne_row d.portIdx _ n (List.range 20) _ (d.portIdx j) i hin]
      exact ihn i hi' j hj

/-- The market factors named by the specification: the domestic rate
process 0 when the instrument's currency code is 0, otherwise the
foreign rate process ccy and the FX process ccy + 10, preceded (for
every step after the first) by the first mapped rate at the previous
reset date. -/
def mappedFactors (d : NotebookData) (i j m : ℕ) : List ℚ :=
  let c := d.ccy (d.portIdx j)
  let base := if c = 0 then [d.ratesFX i m 0]
              else [d.ratesFX i m c, d.ratesFX i m (c + 10)]
  if 0 < i then d.prevFX i m (if c = 0 then 0 else c) :: base else base

theorem factorsRow_eq_mapped (d : NotebookData) (i j m : ℕ) :
    factorsRow d i j m = mappedFactors d i j m := by
  unfold factorsRow mappedFactors irsMap
  by_cases hc : d.ccy (d.portIdx j) = 0 <;> by_cases hi : 0 < i <;>
    simp [hc, hi]

/-- C7. The training phase builds exactly one GP per (instrument,
exposure date) pair: the portfolio table at key port_idx[j], date i,
holds the fit whose inputs are the stratified sample (rescaled) of that
instrument's mapped market factors and whose targets are the (rescaled)
simulated mark-to-market prices of the same instrument at the same
date, both taken at the same sampled scenario indices. -/
theorem C7_one_gp_per_pair (d : NotebookData) (Mg : ℕ)
    (sampler : List (List ℚ) → ℕ → List ℕ) (Mt nt : ℕ)
    (hinj : ∀ a < 20, ∀ b < 20, d.portIdx a = d.portIdx b → a = b) :
    ∀ i < nt, ∀ j < 20,
      (trainLoop d Mg sampler Mt nt (d.portIdx j) i).gp =
        ⟨(sampler (trainMat d Mg i j) Mt).map
            (fun e => (rescaleX (trainMat d Mg i j) (dimOf d i j)).getD e []),
         (sampler (trainMat d Mg i j) Mt).map
            (fun e => (rescaleY (pricesOf d Mg i j)).getD e 0)⟩ ∧
      (∀ m < 2 * Mg, (trainMat d Mg i j).getD m [] = mappedFactors d i j m) ∧
      (∀ m < 2 * Mg, (pricesOf d Mg i j).getD m 0 = d.mtm i j m) := by
  intro i hi j hj
  refine ⟨?_, ?_, ?_⟩
  · rw [trainLoop_get d Mg sampler Mt hinj nt i hi j hj]
    rfl
  · intro m hm
    unfold trainMat
    rw [List.getD_eq_getElem _ _ (by simpa using hm)]
    simp [factorsRow_eq_mapped]
  · intro m hm
    unfold pricesOf
    rw [List.getD_eq_getElem _ _ (by simpa using hm)]
    simp

/-- Concrete data used by several witnesses: a single domestic
instrument, identity port_idx, all simulated values zero. -/
def wData : NotebookData :=
  ⟨fun _ => 0, fun k => k, fun _ _ _ => 0, fun _ _ _ => 0, fun _ _ _ => 0⟩

/-- Concrete sampler used by witnesses: always pick row 0. -/
def wSampler : List (List ℚ) → ℕ → List ℕ := fun _ _ => [0]

/-- Witness for C7 at the concrete data wData, Mg = Mt = nt = 1. -/
theorem C7_one_gp_per_pair_witness :
    (∀ a < 20, ∀ b < 20, wData.portIdx a = wData.portIdx b → a = b) ∧
    (∀ i < 1, ∀ j < 20,
      (trainLoop wData 1 wSampler 1 1 (wData.portIdx j) i).gp =
        ⟨(wSampler (trainMat wData 1 i j) 1).map
            (fun e => (rescaleX (trainMat wData 1 i j) (dimOf wData i j)).getD e []),
         (wSampler (trainMat wData 1 i j) 1).map
            (fun e => (rescaleY (pricesOf wData 1 i j)).getD e 0)⟩ ∧
      (∀ m < 2 * 1, (trainMat wData 1 i j).getD m [] = mappedFactors wData i j m) ∧
      (∀ m < 2 * 1, (pricesOf wData 1 i j).getD m 0 = wData.mtm i j m)) :=
  ⟨fun a _ b _ h => h,
   C7_one_gp_per_pair wData 1 wSampler 1 1 (fun a _ b _ h => h)⟩

theorem epsTrain_pos : 0 < epsTrain := by norm_num [epsTrain]

theorem rescale01_eps (x mn mx : ℚ) (h1 : mn ≤ x) (h2 : x ≤ mx) :
    0 ≤ (x - mn) / (mx - mn + epsTrain) ∧
      (x - mn) / (mx - mn + epsTrain) < 1 := by
  have hd : (0:ℚ) ≤ mx - mn := sub_nonneg.mpr (le_trans h1 h2)
  have hden : (0:ℚ) < mx - mn + epsTrain :=
    add_pos_of_nonneg_of_pos hd epsTrain_pos
  constructor
  · exact div_nonneg (sub_nonneg.mpr h1) hden.le
  · rw [div_lt_one hden]
    have : x - mn ≤ mx - mn := sub_le_sub_right h2 mn
    linarith [epsTrain_pos]

theorem rescale01_exact (x mn mx : ℚ) (h1 : mn ≤ x) (h2 : x ≤ mx)
    (hne : mx - mn ≠ 0) :
    0 ≤ (x - mn) / (mx - mn) ∧ (x - mn) / (mx - mn) ≤ 1 := by
  have hd : (0:ℚ) ≤ mx - mn := sub_nonneg.mpr (le_trans h1 h2)
  have hpos : (0:ℚ) < mx - mn := lt_of_le_of_ne hd (Ne.symm hne)
  constructor
  · exact div_nonneg (sub_nonneg.mpr h1) hpos.le
  · rw [div_le_one hpos]
    exact sub_le_sub_right h2 mn

theorem getD_map_range (f : ℕ → ℚ) (n k : ℕ) (hk : k < n) :
    ((List.range n).map f).getD k 0 = f k := by
  rw [List.getD_eq_getElem _ _ (by simpa using hk), List.getElem_map,
    List.getElem_range]

theorem getD_map_rows (g : List ℚ → List ℚ) (X : List (List ℚ)) (m : ℕ)
    (hm : m < X.length) :
    (X.map g).getD m [] = g (X.getD m []) := by
  rw [List.getD_eq_getElem _ _ (by simpa using hm), List.getElem_map,
    List.getD_eq_getElem _ _ hm]

theorem rescaleX_entry (X : List (List ℚ)) (dim m k : ℕ)
    (hm : m < X.length) (hk : k < dim) :
    ((rescaleX X dim).getD m []).getD k 0 =
      ((X.getD m []).getD k 0 - colMin X k) /
        (colMax X k - colMin X k + epsTrain) := by
  unfold rescaleX
  rw [getD_map_rows _ _ _ hm, getD_map_range _ _ _ hk]

theorem colEntry_bounds (X : List (List ℚ)) (m k : ℕ) (hm : m < X.length) :
    colMin X k ≤ (X.getD m []).getD k 0 ∧
      (X.getD m []).getD k 0 ≤ colMax X k := by
  have hmem : (X.getD m []).getD k 0 ∈ colOf X k := by
    rw [List.getD_eq_getElem _ _ hm]
    exact List.mem_map.mpr ⟨X[m], List.getElem_mem _, rfl⟩
  exact ⟨listMin_le_mem _ _ hmem, le_listMax_mem _ _ hmem⟩

theorem listMem_bounds (y : List ℚ) (m : ℕ) (hm : m < y.length) :
    listMin y ≤ y.getD m 0 ∧ y.getD m 0 ≤ listMax y := by
  have hmem : y.getD m 0 ∈ y := by
    rw [List.getD_eq_getElem _ _ hm]
    exact List.getElem_mem _
  exact ⟨listMin_le_mem _ _ hmem, le_listMax_mem _ _ hmem⟩

theorem rescaleY_entry_ne (y : List ℚ) (m : ℕ) (hm : m < y.length)
    (hne : listMax y - listMin y ≠ 0) :
    (rescaleY y).getD m 0 =
      (y.getD m 0 - listMin y) / (listMax y - listMin y) := by
  unfold rescaleY
  rw [if_pos hne]
  rw [List.getD_eq_getElem _ _ (by simpa using hm), List.getElem_map]
  rw [List.getD_eq_getElem _ _ hm]

theorem rescaleY_entry_eq (y : List ℚ) (m : ℕ) (hm : m < y.length)
    (heq : listMax y - listMin y = 0) :
    (rescaleY y).getD m 0 = y.getD m 0 - listMin y := by
  unfold rescaleY
  rw [if_neg (by simp [heq])]
  rw [List.getD_eq_getElem _ _ (by simpa using hm), List.getElem_map]
  rw [List.getD_eq_getElem _ _ hm]

/-- C5. For every instrument and coarse time step: every entry of the
rescaled training input matrix (x - min) / (max - min + 1e-16) lies in
the half-open interval from 0 to 1 and an entry attaining the column
minimum is rescaled to exactly 0; every rescaled training target lies
between 0 and 1, with minimum price mapped to 0, maximum price mapped
to 1 when the price range is nonzero, and every rescaled price equal to
0 when the price range is zero. -/
theorem C5_training_rescaling (d : NotebookData) (Mg i j : ℕ)
    (hMg : 1 ≤ Mg) :
    (∀ m < 2 * Mg, ∀ k < dimOf d i j,
      (0 ≤ ((rescaleX (trainMat d Mg i j) (dimOf d i j)).getD m []).getD k 0 ∧
        ((rescaleX (trainMat d Mg i j) (dimOf d i j)).getD m []).getD k 0 < 1) ∧
      (((trainMat d Mg i j).getD m []).getD k 0 = colMin (trainMat d Mg i j) k →
        ((rescaleX (trainMat d Mg i j) (dimOf d i j)).getD m []).getD k 0 = 0)) ∧
    (∀ m < 2 * Mg,
      (0 ≤ (rescaleY (pricesOf d Mg i j)).getD m 0 ∧
        (rescaleY (pricesOf d Mg i j)).getD m 0 ≤ 1) ∧
      (listMax (pricesOf d Mg i j) - listMin (pricesOf d Mg i j) ≠ 0 →
        ((pricesOf d Mg i j).getD m 0 = listMin (pricesOf d Mg i j) →
          (rescaleY (pricesOf d Mg i j)).getD m 0 = 0) ∧
        ((pricesOf d Mg i j).getD m 0 = listMax (pricesOf d Mg i j) →
          (rescaleY (pricesOf d Mg i j)).getD m 0 = 1)) ∧
      (listMax (pricesOf d Mg i j) - listMin (pricesOf d Mg i j) = 0 →
        (rescaleY (pricesOf d Mg i j)).getD m 0 = 0)) := by
  have hXlen : (trainMat d Mg i j).length = 2 * Mg := by
    simp [trainMat]
  have hylen : (pricesOf d Mg i j).length = 2 * Mg := by
    simp [pricesOf]
  constructor
  · intro m hm k hk
    have hmX : m < (trainMat d Mg i j).length := by omega
    have hb := colEntry_bounds (trainMat d Mg i j) m k hmX
    rw [rescaleX_entry _ _ _ _ hmX hk]
    refine ⟨rescale01_eps _ _ _ hb.1 hb.2, ?_⟩
    intro hmin
    rw [hmin, sub_self, zero_div]
  · intro m hm
    have hmy : m < (pricesOf d Mg i j).length := by omega
    have hb := listMem_bounds (pricesOf d Mg i j) m hmy
    by_cases hrng : listMax (pricesOf d Mg i j) - listMin (pricesOf d Mg i j) = 0
    · have hval := rescaleY_entry_eq (pricesOf d Mg i j) m hmy hrng
      have hmxeq : listMax (pricesOf d Mg i j) = listMin (pricesOf d Mg i j) :=
        sub_eq_zero.mp hrng
      have hy : (pricesOf d Mg i j).getD m 0 = listMin (pricesOf d Mg i j) := by
        have h1 := hb.1
        have h2 := hb.2
        rw [hmxeq] at h2
        exact le_antisymm h2 h1
      refine ⟨?_, ?_, ?_⟩
      · rw [hval, hy, sub_self]; norm_num
      · intro hc; exact absurd hrng hc
      · intro _; rw [hval, hy, sub_self]
    · have hval := rescaleY_entry_ne (pricesOf d Mg i j) m hmy hrng
      refine ⟨?_, ?_, ?_⟩
      · rw [hval]
        exact rescale01_exact _ _ _ hb.1 hb.2 hrng
      · intro _
        constructor
        · intro hmin; rw [hval, hmin, sub_self, zero_div]
        · intro hmax; rw [hval, hmax]; exact div_self hrng
      · intro hc; exact absurd hc hrng

/-- Witness for C5 at wData with Mg = 1. -/
theorem C5_training_rescaling_witness :
    (1 ≤ 1) ∧
    ((∀ m < 2 * 1, ∀ k < dimOf wData 0 0,
      (0 ≤ ((rescaleX (trainMat wData 1 0 0) (dimOf wData 0 0)).getD m []).getD k 0 ∧
        ((rescaleX (trainMat wData 1 0 0) (dimOf wData 0 0)).getD m []).getD k 0 < 1) ∧
      (((trainMat wData 1 0 0).getD m []).getD k 0 = colMin (trainMat wData 1 0 0) k →
        ((rescaleX (trainMat wData 1 0 0) (dimOf wData 0 0)).getD m []).getD k 0 = 0)) ∧
    (∀ m < 2 * 1,
      (0 ≤ (rescaleY (pricesOf wData 1 0 0)).getD m 0 ∧
        (rescaleY (pricesOf wData 1 0 0)).getD m 0 ≤ 1) ∧
      (listMax (pricesOf wData 1 0 0) - listMin (pricesOf wData 1 0 0) ≠ 0 →
        ((pricesOf wData 1 0 0).getD m 0 = listMin (pricesOf wData 1 0 0) →
          (rescaleY (pricesOf wData 1 0 0)).getD m 0 = 0) ∧
        ((pricesOf wData 1 0 0).getD m 0 = listMax (pricesOf wData 1 0 0) →
          (rescaleY (pricesOf wData 1 0 0)).getD m 0 = 1)) ∧
      (listMax (pricesOf wData 1 0 0) - listMin (pricesOf wData 1 0 0) = 0 →
        (rescaleY (pricesOf wData 1 0 0)).getD m 0 = 0))) :=
  ⟨le_refl 1, C5_training_rescaling wData 1 0 0 (le_refl 1)⟩

/-! ## CVA_simulation

The function's parameters, its Monte Carlo exposure loop (phase 1) and
its CVA accumulation loop (phase 2).  Library calls are abstracted as
function parameters: gpPredict models the fitted GaussianProcessRegressor
predict (per-row posterior mean and standard deviation), pyexp models
np.exp, and pysqrt the value the bare name sqrt would denote if it
resolved.  Name lookup of the bare sqrt in the error-bar expression
dt/sqrt(M) is modelled against the notebook's global namespace: Python
resolves a name via the function locals (M, nt, r, T, t0, haz_rate,
n_instruments, pi, dPD, dt, i, pred_, var_, obs_, j, idx, irs_prices,
rates, prev_rates, n_rates, key, dim, test_rates, k, idx_min, idx_max,
min_, max_, test_rates_sc, pred_sc, std, min_y_, max_y_, pred, CVA,
time, mu_tilde, std_tilde_err, mu_exact, std_exact_err), then the
module globals listed below, then the builtins; none of the three
scopes binds sqrt (the notebook imports only matplotlib.pyplot as plt,
numpy as np and the sklearn names, and Python builtins have no sqrt). -/

structure SimParamsQ where
  M : ℕ
  nt : ℕ

structure ModelParamsQ where
  r : ℚ
  T : ℚ
  t0 : ℚ
  lam : ℚ
  size : ℕ

structure DefModelQ where
  recovery : ℚ

/-- The module-level names bound by the notebook's cells before the
CVA_simulation call. -/
def notebookGlobals : List String :=
  ["plt", "np", "gaussian_process", "ConstantKernel", "RBF", "Matern",
   "mtm_irs", "rates_and_fx", "irs_params", "rate_params", "cpty_idx",
   "port_idx", "i", "T", "reset_idx", "M", "irs_map", "ccy", "mtm",
   "rates_fx", "prev_rates_fx", "t", "nt", "stratified_sampling",
   "sk_kernel_matern", "sk_kernel_rbf", "portfolio", "gps", "j",
   "n_rates", "rates_", "idx", "gp", "rates_sc_", "irs_prices",
   "irs_prices_sc_", "CVA_simulation", "def_model", "sim_params",
   "model_params"]

/-- Python name resolution against an environment. -/
def resolveName (env : List String) (n : String) : Except PyErr Unit :=
  if n ∈ env then .ok () else .error (.nameError n)

/-- One draw of np.random.choice(range(2*M), M): the m-th scenario index
used at exposure date i for instrument j (the stream rng is consumed in
loop order; for M = 0 the draw list below is empty and this is unused). -/
def scenIdx (M size : ℕ) (rng : ℕ → ℕ) (i j m : ℕ) : ℕ :=
  rng ((i * size + j) * M + m) % (2 * M)

/-- idx = np.random.choice(range(2*M), M) at (i, j). -/
def idxL (M size : ℕ) (rng : ℕ → ℕ) (i j : ℕ) : List ℕ :=
  (List.range M).map (scenIdx M size rng i j)

/-- test_rates before clipping: the factor rows at the drawn scenarios
(prev_rates[idx] in column 0 and rates[idx, :] in the rest when i > 0). -/
def testMat (d : NotebookData) (M size : ℕ) (rng : ℕ → ℕ) (i j : ℕ) :
    List (List ℚ) :=
  (idxL M size rng i j).map (factorsRow d i j)

/-- Per-entry effect of the two np.where assignments of the clipping
loop: both index sets are computed on the original column, then entries
above the upper bound are set to it (second assignment, last write) and
entries below the lower bound to it. -/
def clip1 (x lo hi : ℚ) : ℚ := if hi < x then hi else if x < lo then lo else x

/-- One iteration of the clipping loop: column k of every row is clipped
to [min[i][k], max[i][k]]. -/
def clipStepCol (lo hi : List ℚ) (k : ℕ) (Y : List (List ℚ)) :
    List (List ℚ) :=
  Y.map (fun r => r.set k (clip1 (r.getD k 0) (lo.getD k 0) (hi.getD k 0)))

/-- The clipping loop over the dim columns. -/
def clipMat (X : List (List ℚ)) (lo hi : List ℚ) (dim : ℕ) :
    List (List ℚ) :=
  (List.range dim).foldl (fun Y k => clipStepCol lo hi k Y) X

/-- test_rates_sc = (test_rates - min_) / (max_ - min_), column-wise
against the full-sample training bounds. -/
def rescaleTest (X : List (List ℚ)) (loX hiX : List ℚ) : List (List ℚ) :=
  X.map (fun r => (List.range r.length).map (fun k =>
    (r.getD k 0 - loX.getD k 0) / (hiX.getD k 0 - loX.getD k 0)))

/-- The rescaled test matrix fed to the GP at (i, j). -/
def testScMat (d : NotebookData) (M size : ℕ) (rng : ℕ → ℕ)
    (port : ℕ → ℕ → InstrSlot) (i j : ℕ) : List (List ℚ) :=
  let slot := port (d.portIdx j) i
  rescaleTest (clipMat (testMat d M size rng i j) slot.lo slot.hi
    (dimOf d i j)) slot.loX slot.hiX

/-- pred = min_y_ + pred_sc * (max_y_ - min_y_), row by row. -/
def predVec (d : NotebookData) (M size : ℕ) (rng : ℕ → ℕ)
    (gpPredict : FitData → List ℚ → ℚ × ℚ)
    (port : ℕ → ℕ → InstrSlot) (i j : ℕ) : List ℚ :=
  let slot := port (d.portIdx j) i
  (testScMat d M size rng port i j).map
    (fun row => slot.loY + (gpPredict slot.gp row).1 * (slot.hiY - slot.loY))

/-- std (after the rescaling std *= max_y_ - min_y_), row by row. -/
def stdVec (d : NotebookData) (M size : ℕ) (rng : ℕ → ℕ)
    (gpPredict : FitData → List ℚ → ℚ × ℚ)
    (port : ℕ → ℕ → InstrSlot) (i j : ℕ) : List ℚ :=
  let slot := port (d.portIdx j) i
  (testScMat d M size rng port i j).map
    (fun row => (gpPredict slot.gp row).2 * (slot.hiY - slot.loY))

/-- irs_prices = mtm[i][j, idx]: the analytical prices at the same
drawn scenario indices. -/
def obsVec (d : NotebookData) (M size : ℕ) (rng : ℕ → ℕ) (i j : ℕ) :
    List ℚ :=
  (idxL M size rng i j).map (fun s => d.mtm i j s)

def zipAdd (a b : List ℚ) : List ℚ := List.zipWith (· + ·) a b

/-- The inner instrument loop of one exposure date: pred_ += w * pred,
var_ += (w * std)^2, obs_ += w * irs_prices, starting from the scalar
zeros broadcast over the M paths. -/
def accumRows (d : NotebookData) (M size : ℕ) (rng : ℕ → ℕ)
    (gpPredict : FitData → List ℚ → ℚ × ℚ)
    (port : ℕ → ℕ → InstrSlot) (i : ℕ) : List ℚ × List ℚ × List ℚ :=
  (List.range size).foldl
    (fun acc j =>
      let w := (port (d.portIdx j) i).w
      (zipAdd acc.1 ((predVec d M size rng gpPredict port i j).map (fun x => w * x)),
       zipAdd acc.2.1 ((stdVec d M size rng gpPredict port i j).map (fun x => (w * x) ^ 2)),
       zipAdd acc.2.2 ((obsVec d M size rng i j).map (fun x => w * x))))
    (List.replicate M 0, List.replicate M 0, List.replicate M 0)

/-- dPD[i, :] = haz_rate * np.exp(-haz_rate * dt). -/
def dPDRow (M : ℕ) (lam dt : ℚ) (pyexp : ℚ → ℚ) : List ℚ :=
  List.replicate M (lam * pyexp (-(lam * dt)))

/-- The four (nt, M) arrays filled by the exposure loop. -/
structure PiOut where
  tilde : ℕ → List ℚ
  exactV : ℕ → List ℚ
  tvar : ℕ → List ℚ
  dPD : ℕ → List ℚ

def updFL (f : ℕ → List ℚ) (i : ℕ) (v : List ℚ) : ℕ → List ℚ :=
  fun x => if x = i then v else f x

/-- The zero arrays pi and dPD before the loop. -/
def initPi (M : ℕ) : PiOut :=
  ⟨fun _ => List.replicate M 0, fun _ => List.replicate M 0,
   fun _ => List.replicate M 0, fun _ => List.replicate M 0⟩

/-- Phase 1 of CVA_simulation: for each exposure date i, the instrument
loop fills pi['tilde'], pi['exact'], pi['tilde_var'] and dPD row i. -/
def phase1 (d : NotebookData) (M nt size : ℕ) (rng : ℕ → ℕ)
    (gpPredict : FitData → List ℚ → ℚ × ℚ)
    (port : ℕ → ℕ → InstrSlot) (lam T : ℚ) (pyexp : ℚ → ℚ) : PiOut :=
  (List.range nt).foldl
    (fun st i =>
      let a := accumRows d M size rng gpPredict port i
      ⟨updFL st.tilde i a.1, updFL st.exactV i a.2.2, updFL st.tvar i a.2.1,
       updFL st.dPD i (dPDRow M lam (T / (nt : ℚ)) pyexp)⟩)
    (initPi M)

def npMean (l : List ℚ) : ℚ := l.sum / (l.length : ℚ)

/-- np.std: population standard deviation (its internal square root is
the abstracted pysqrt). -/
def npStdQ (pysqrt : ℚ → ℚ) (l : List ℚ) : ℚ :=
  pysqrt (npMean (l.map (fun x => (x - npMean l) ^ 2)))

def vecMul (a b : List ℚ) : List ℚ := List.zipWith (· * ·) a b

/-- The six accumulated CVA values. -/
structure CVAOut where
  tilde : ℚ
  tilde_up : ℚ
  tilde_down : ℚ
  exactV : ℚ
  exact_up : ℚ
  exact_down : ℚ

/-- Phase 2 of CVA_simulation as it would compute with sqrt bound to
pysqrt: discounted default-weighted means and 2-standard-error bands,
scaled by (1 - recovery).  In the actual notebook this code is
unreachable for nt >= 1 because the name sqrt does not resolve. -/
def cvaFull (pyexp pysqrt : ℚ → ℚ) (M nt : ℕ) (r T t0 recovery : ℚ)
    (pi : PiOut) : CVAOut :=
  let dt := T / (nt : ℚ)
  let mu := fun (row : ℕ → List ℚ) (i : ℕ) =>
    npMean (vecMul (pi.dPD i) (row i)) * pyexp (-(r * ((i : ℚ) * dt - t0))) * dt
  let er := fun (row : ℕ → List ℚ) (i : ℕ) =>
    npStdQ pysqrt (vecMul (pi.dPD i) (row i)) * pyexp (-(r * ((i : ℚ) * dt - t0))) *
      dt / pysqrt (M : ℚ)
  { tilde := (1 - recovery) * ((List.range nt).map (mu pi.tilde)).sum
    tilde_up := (1 - recovery) *
      ((List.range nt).map (fun i => mu pi.tilde i + 2 * er pi.tilde i)).sum
    tilde_down := (1 - recovery) *
      ((List.range nt).map (fun i => mu pi.tilde i - 2 * er pi.tilde i)).sum
    exactV := (1 - recovery) * ((List.range nt).map (mu pi.exactV)).sum
    exact_up := (1 - recovery) *
      ((List.range nt).map (fun i => mu pi.exactV i + 2 * er pi.exactV i)).sum
    exact_down := (1 - recovery) *
      ((List.range nt).map (fun i => mu pi.exactV i - 2 * er pi.exactV i)).sum }

/-- CVA_simulation.  Phase 1 always runs; phase 2's first iteration
evaluates the expression dt/sqrt(M), whose name lookup of sqrt fails in
every scope, so for nt >= 1 the function raises NameError and returns
nothing.  For nt = 0 the accumulation loop body never runs and the
zero-valued CVA dict is returned. -/
def CVA_simulation (d : NotebookData) (port : ℕ → ℕ → InstrSlot)
    (gpPredict : FitData → List ℚ → ℚ × ℚ) (rng : ℕ → ℕ)
    (pyexp pysqrt : ℚ → ℚ) (simP : SimParamsQ) (modelP : ModelParamsQ)
    (defM : DefModelQ) : Except PyErr (CVAOut × PiOut) :=
  let pi := phase1 d simP.M simP.nt modelP.size rng gpPredict port
    modelP.lam modelP.T pyexp
  if simP.nt = 0 then
    .ok (cvaFull pyexp pysqrt simP.M simP.nt modelP.r modelP.T modelP.t0
      defM.recovery pi, pi)
  else
    match resolveName notebookGlobals "sqrt" with
    | .error e => .error e
    | .ok _ =>
      .ok (cvaFull pyexp pysqrt simP.M simP.nt modelP.r modelP.T modelP.t0
        defM.recovery pi, pi)

/-- C3. For every input with nt >= 1, CVA_simulation raises NameError
at the error-bar expression dt/sqrt(M): the name sqrt is bound neither
in the notebook's globals (only matplotlib.pyplot, numpy as np and
sklearn symbols are imported) nor locally nor in the builtins, so the
function never returns a CVA dictionary. -/
theorem C3_sqrt_nameError (d : NotebookData) (port : ℕ → ℕ → InstrSlot)
    (gpPredict : FitData → List ℚ → ℚ × ℚ) (rng : ℕ → ℕ)
    (pyexp pysqrt : ℚ → ℚ) (simP : SimParamsQ) (modelP : ModelParamsQ)
    (defM : DefModelQ) (hnt : 1 ≤ simP.nt) :
    ("sqrt" ∉ notebookGlobals) ∧
    CVA_simulation d port gpPredict rng pyexp pysqrt simP modelP defM =
      .error (.nameError "sqrt") := by
  have hmem : ("sqrt" : String) ∉ notebookGlobals := by
    simp [notebookGlobals]
  refine ⟨hmem, ?_⟩
  unfold CVA_simulation
  rw [if_neg (by omega)]
  unfold resolveName
  rw [if_neg hmem]

/-- Witness for C3 at concrete parameters M = nt = 1. -/
theorem C3_sqrt_nameError_witness :
    (1 ≤ (SimParamsQ.mk 1 1).nt) ∧
    (("sqrt" ∉ notebookGlobals) ∧
      CVA_simulation wData (fun _ _ => initSlot) (fun _ _ => (0, 0))
        (fun _ => 0) (fun q => q) (fun q => q) (SimParamsQ.mk 1 1)
        (ModelParamsQ.mk 0 0 0 0 1) (DefModelQ.mk 0) =
        .error (.nameError "sqrt")) :=
  ⟨le_refl 1,
   C3_sqrt_nameError wData (fun _ _ => initSlot) (fun _ _ => (0, 0))
     (fun _ => 0) (fun q => q) (fun q => q) (SimParamsQ.mk 1 1)
     (ModelParamsQ.mk 0 0 0 0 1) (DefModelQ.mk 0) (le_refl 1)⟩

/-- C2 evidence. At the notebook's own call (cell after the function
definition: M = 1000, nt = 10, r = 0.02, T = 10.0, t0 = 0,
lambda = 0.05, size = 20, recovery = 0.4), CVA_simulation raises
NameError for sqrt, so no CVA dictionary is returned and no ordering of
CVA values can be observed. -/
theorem C2_notebook_call_errors (d : NotebookData)
    (port : ℕ → ℕ → InstrSlot) (gpPredict : FitData → List ℚ → ℚ × ℚ)
    (rng : ℕ → ℕ) (pyexp pysqrt : ℚ → ℚ) :
    CVA_simulation d port gpPredict rng pyexp pysqrt
      (SimParamsQ.mk 1000 10)
      (ModelParamsQ.mk (2/100) 10 0 (5/100) 20) (DefModelQ.mk (4/10)) =
      .error (.nameError "sqrt") := by
  have hmem : ("sqrt" : String) ∉ notebookGlobals := by
    simp [notebookGlobals]
  unfold CVA_simulation
  rw [if_neg (by decide)]
  unfold resolveName
  rw [if_neg hmem]

theorem getD_map_range' {β : Type} (dflt : β) (f : ℕ → β) (n k : ℕ)
    (hk : k < n) : ((List.range n).map f).getD k dflt = f k := by
  rw [List.getD_eq_getElem _ _ (by simpa using hk), List.getElem_map,
    List.getElem_range]

theorem getD_map' {α β : Type} (dflt : β) (dflta : α) (f : α → β)
    (l : List α) (m : ℕ) (hm : m < l.length) :
    (l.map f).getD m dflt = f (l.getD m dflta) := by
  rw [List.getD_eq_getElem _ _ (by simpa using hm), List.getElem_map,
    List.getD_eq_getElem _ _ hm]

theorem getD_replicate' {β : Type} (dflt c : β) (n m : ℕ) (hm : m < n) :
    (List.replicate n c).getD m dflt = c := by
  rw [List.getD_eq_getElem _ _ (by simpa using hm)]
  exact List.getElem_replicate _ _

theorem foldl_updFL_rows (A B C D : ℕ → List ℚ) (st0 : PiOut) :
    ∀ (n : ℕ), ∀ i < n,
      (((List.range n).foldl
        (fun st i' => ⟨updFL st.tilde i' (A i'), updFL st.exactV i' (B i'),
          updFL st.tvar i' (C i'), updFL st.dPD i' (D i')⟩) st0).tilde i = A i) ∧
      (((List.range n).foldl
        (fun st i' => ⟨updFL st.tilde i' (A i'), updFL st.exactV i' (B i'),
          updFL st.tvar i' (C i'), updFL st.dPD i' (D i')⟩) st0).exactV i = B i) ∧
      (((List.range n).foldl
        (fun st i' => ⟨updFL st.tilde i' (A i'), updFL st.exactV i' (B i'),
          updFL st.tvar i' (C i'), updFL st.dPD i' (D i')⟩) st0).tvar i = C i) ∧
      (((List.range n).foldl
        (fun st i' => ⟨updFL st.tilde i' (A i'), updFL st.exactV i' (B i'),
          updFL st.tvar i' (C i'), updFL st.dPD i' (D i')⟩) st0).dPD i = D i) := by
  intro n
  induction n with
  | zero => intro i hi; omega
  | succ k ih =>
    intro i hi
    rw [@List.range_succ k, List.foldl_append, List.foldl_cons, List.foldl_nil]
    by_cases hik : i = k
    · subst hik
      refine ⟨?_, ?_, ?_, ?_⟩ <;> simp [updFL]
    · obtain ⟨h1, h2, h3, h4⟩ := ih i (by omega)
      refine ⟨?_, ?_, ?_, ?_⟩ <;> simp [updFL, hik, h1, h2, h3, h4]

theorem phase1_rows (d : NotebookData) (M nt size : ℕ) (rng : ℕ → ℕ)
    (gpPredict : FitData → List ℚ → ℚ × ℚ) (port : ℕ → ℕ → InstrSlot)
    (lam T : ℚ) (pyexp : ℚ → ℚ) :
    ∀ i < nt,
      ((phase1 d M nt size rng gpPredict port lam T pyexp).tilde i =
        (accumRows d M size rng gpPredict port i).1) ∧
      ((phase1 d M nt size rng gpPredict port lam T pyexp).exactV i =
        (accumRows d M size rng gpPredict port i).2.2) ∧
      ((phase1 d M nt size rng gpPredict port lam T pyexp).tvar i =
        (accumRows d M size rng gpPredict port i).2.1) ∧
      ((phase1 d M nt size rng gpPredict port lam T pyexp).dPD i =
        dPDRow M lam (T / (nt : ℚ)) pyexp) := by
  intro i hi
  exact foldl_updFL_rows
    (fun i' => (accumRows d M size rng gpPredict port i').1)
    (fun i' => (accumRows d M size rng gpPredict port i').2.2)
    (fun i' => (accumRows d M size rng gpPredict port i').2.1)
    (fun _ => dPDRow M lam (T / (nt : ℚ)) pyexp) (initPi M) nt i hi

/-- C10. The per-period default probability written into dPD is the
single constant lambda * exp(-lambda * T/nt): the same for every
exposure date, every path, and independent of all simulated market
data, the portfolio, the GP predictions and the random draws. -/
theorem C10_dPD_constant (d d' : NotebookData) (M nt size size' : ℕ)
    (rng rng' : ℕ → ℕ) (gpPredict gpPredict' : FitData → List ℚ → ℚ × ℚ)
    (port port' : ℕ → ℕ → InstrSlot) (lam T : ℚ) (pyexp : ℚ → ℚ)
    (i i' m m' : ℕ) (hi : i < nt) (hi' : i' < nt) (hm : m < M)
    (hm' : m' < M) :
    ((phase1 d M nt size rng gpPredict port lam T pyexp).dPD i).getD m 0 =
      lam * pyexp (-(lam * (T / (nt : ℚ)))) ∧
    ((phase1 d M nt size rng gpPredict port lam T pyexp).dPD i).getD m 0 =
      ((phase1 d' M nt size' rng' gpPredict' port' lam T pyexp).dPD i').getD m' 0 := by
  have h1 := (phase1_rows d M nt size rng gpPredict port lam T pyexp i hi).2.2.2
  have h2 := (phase1_rows d' M nt size' rng' gpPredict' port' lam T pyexp i' hi').2.2.2
  have hv1 : ((phase1 d M nt size rng gpPredict port lam T pyexp).dPD i).getD m 0 =
      lam * pyexp (-(lam * (T / (nt : ℚ)))) := by
    rw [h1]
    unfold dPDRow
    exact getD_replicate' _ _ _ _ hm
  refine ⟨hv1, ?_⟩
  rw [hv1, h2]
  unfold dPDRow
  rw [getD_replicate' _ _ _ _ hm']

/-- Witness for C10 at concrete parameters (two distinct data sets). -/
theorem C10_dPD_constant_witness :
    (0 < 1 ∧ 0 < 1) ∧
    (((phase1 wData 1 1 1 (fun _ => 0) (fun _ _ => (0, 0))
        (fun _ _ => initSlot) 1 1 (fun q => q)).dPD 0).getD 0 0 =
      1 * (fun q : ℚ => q) (-(1 * ((1 : ℚ) / ((1 : ℕ) : ℚ)))) ∧
    ((phase1 wData 1 1 1 (fun _ => 0) (fun _ _ => (0, 0))
        (fun _ _ => initSlot) 1 1 (fun q => q)).dPD 0).getD 0 0 =
      ((phase1 ⟨fun _ => 1, fun k => k, fun _ _ _ => 1, fun _ _ _ => 1,
          fun _ _ _ => 1⟩ 1 1 1 (fun n => n) (fun _ _ => (1, 1))
          (fun _ _ => initSlot) 1 1 (fun q => q)).dPD 0).getD 0 0) :=
  ⟨⟨Nat.zero_lt_one, Nat.zero_lt_one⟩,
   C10_dPD_constant wData ⟨fun _ => 1, fun k => k, fun _ _ _ => 1,
       fun _ _ _ => 1, fun _ _ _ => 1⟩ 1 1 1 1 (fun _ => 0) (fun n => n)
     (fun _ _ => (0, 0)) (fun _ _ => (1, 1)) (fun _ _ => initSlot)
     (fun _ _ => initSlot) 1 1 (fun q => q) 0 0 0 0 Nat.zero_lt_one
     Nat.zero_lt_one Nat.zero_lt_one Nat.zero_lt_one⟩

theorem factorsRow_length (d : NotebookData) (i j m : ℕ) :
    (factorsRow d i j m).length = dimOf d i j := by
  unfold factorsRow dimOf
  by_cases hi : 0 < i <;> simp [hi]

theorem foldl_map_commute (s : ℕ → List ℚ → List ℚ) :
    ∀ (L : List ℕ) (X : List (List ℚ)),
      L.foldl (fun Y k => Y.map (s k)) X =
        X.map (fun r => L.foldl (fun r k => s k r) r) := by
  intro L
  induction L with
  | nil => intro X; simp
  | cons a t ih =>
    intro X
    simp only [List.foldl_cons]
    rw [ih (X.map (s a)), List.map_map]
    rfl

/-- The row-level effect of the clipping loop. -/
def clipRowFold (lo hi : List ℚ) (dim : ℕ) (r : List ℚ) : List ℚ :=
  (List.range dim).foldl
    (fun r k => r.set k (clip1 (r.getD k 0) (lo.getD k 0) (hi.getD k 0))) r

theorem clipMat_eq_map (X : List (List ℚ)) (lo hi : List ℚ) (dim : ℕ) :
    clipMat X lo hi dim = X.map (clipRowFold lo hi dim) := by
  unfold clipMat clipStepCol clipRowFold
  exact foldl_map_commute _ (List.range dim) X

theorem clipRowFold_length (lo hi : List ℚ) :
    ∀ (L : List ℕ) (r : List ℚ),
      (L.foldl (fun r k => r.set k
        (clip1 (r.getD k 0) (lo.getD k 0) (hi.getD k 0))) r).length =
      r.length := by
  intro L
  induction L with
  | nil => intro r; rfl
  | cons a t ih =>
    intro r
    simp only [List.foldl_cons]
    rw [ih]
    exact List.length_set ..

theorem clipRow_getD_ge (lo hi : List ℚ) :
    ∀ (n : ℕ) (r : List ℚ) (k : ℕ), n ≤ k →
      ((List.range n).foldl (fun r k => r.set k
        (clip1 (r.getD k 0) (lo.getD k 0) (hi.getD k 0))) r).getD k 0 =
      r.getD k 0 := by
  intro n
  induction n with
  | zero => intro r k _; rfl
  | succ p ih =>
    intro r k hk
    rw [@List.range_succ p, List.foldl_append, List.foldl_cons, List.foldl_nil]
    rw [List.getD_set_ne' _ p k _ _ (by omega)]
    exact ih r k (by omega)

theorem clipRow_getD_lt (lo hi : List ℚ) :
    ∀ (n : ℕ) (r : List ℚ) (k : ℕ), k < n → k < r.length →
      ((List.range n).foldl (fun r k => r.set k
        (clip1 (r.getD k 0) (lo.getD k 0) (hi.getD k 0))) r).getD k 0 =
      clip1 (r.getD k 0) (lo.getD k 0) (hi.getD k 0) := by
  intro n
  induction n with
  | zero => intro r k hk; omega
  | succ p ih =>
    intro r k hk hkr
    rw [@List.range_succ p, List.foldl_append, List.foldl_cons, List.foldl_nil]
    by_cases hkp : k = p
    · subst hkp
      rw [List.getD_set_eq' _ k _ _ (by rw [clipRowFold_length]; exact hkr)]
      rw [clipRow_getD_ge lo hi k r k (le_refl k)]
    · rw [List.getD_set_ne' _ p k _ _ (fun hc => hkp hc.symm)]
      exact ih r k (by omega) hkr

/-- The per-scenario rescaled GP input row used in the prediction. -/
def testRowAt (d : NotebookData) (port : ℕ → ℕ → InstrSlot) (i j s : ℕ) :
    List ℚ :=
  let slot := port (d.portIdx j) i
  (List.range (dimOf d i j)).map (fun k =>
    (clip1 ((factorsRow d i j s).getD k 0) (slot.lo.getD k 0)
        (slot.hi.getD k 0) - slot.loX.getD k 0) /
    (slot.hiX.getD k 0 - slot.loX.getD k 0))

theorem testScMat_eq (d : NotebookData) (M size : ℕ) (rng : ℕ → ℕ)
    (port : ℕ → ℕ → InstrSlot) (i j : ℕ) :
    testScMat d M size rng port i j =
      (List.range M).map
        (fun m => testRowAt d port i j (scenIdx M size rng i j m)) := by
  unfold testScMat testMat idxL rescaleTest
  dsimp only
  rw [clipMat_eq_map, List.map_map, List.map_map, List.map_map]
  apply List.map_congr_left
  intro m _
  simp only [Function.comp]
  have hlen : (clipRowFold (port (d.portIdx j) i).lo (port (d.portIdx j) i).hi
      (dimOf d i j) (factorsRow d i j (scenIdx M size rng i j m))).length =
      dimOf d i j := by
    unfold clipRowFold
    rw [clipRowFold_length]
    exact factorsRow_length d i j _
  rw [hlen]
  unfold testRowAt
  apply List.map_congr_left
  intro k hk
  have hk' : k < dimOf d i j := List.mem_range.mp hk
  have hcl : (clipRowFold (port (d.portIdx j) i).lo (port (d.portIdx j) i).hi
      (dimOf d i j) (factorsRow d i j (scenIdx M size rng i j m))).getD k 0 =
      clip1 ((factorsRow d i j (scenIdx M size rng i j m)).getD k 0)
        ((port (d.portIdx j) i).lo.getD k 0)
        ((port (d.portIdx j) i).hi.getD k 0) := by
    unfold clipRowFold
    exact clipRow_getD_lt _ _ _ _ _ hk'
      (by rw [factorsRow_length]; exact hk')
  rw [hcl]

/-- The GP portfolio contribution of instrument j at one scenario s:
min_y_ + pred_sc * (max_y_ - min_y_) at the clipped rescaled inputs. -/
def predAtScen (d : NotebookData) (gpPredict : FitData → List ℚ → ℚ × ℚ)
    (port : ℕ → ℕ → InstrSlot) (i j s : ℕ) : ℚ :=
  let slot := port (d.portIdx j) i
  slot.loY + (gpPredict slot.gp (testRowAt d port i j s)).1 *
    (slot.hiY - slot.loY)

/-- The rescaled GP standard deviation at one scenario. -/
def stdAtScen (d : NotebookData) (gpPredict : FitData → List ℚ → ℚ × ℚ)
    (port : ℕ → ℕ → InstrSlot) (i j s : ℕ) : ℚ :=
  let slot := port (d.portIdx j) i
  (gpPredict slot.gp (testRowAt d port i j s)).2 * (slot.hiY - slot.loY)

theorem predVec_eq (d : NotebookData) (M size : ℕ) (rng : ℕ → ℕ)
    (gpPredict : FitData → List ℚ → ℚ × ℚ) (port : ℕ → ℕ → InstrSlot)
    (i j : ℕ) :
    predVec d M size rng gpPredict port i j =
      (List.range M).map
        (fun m => predAtScen d gpPredict port i j (scenIdx M size rng i j m)) := by
  unfold predVec
  dsimp only
  rw [testScMat_eq, List.map_map]
  rfl

theorem stdVec_eq (d : NotebookData) (M size : ℕ) (rng : ℕ → ℕ)
    (gpPredict : FitData → List ℚ → ℚ × ℚ) (port : ℕ → ℕ → InstrSlot)
    (i j : ℕ) :
    stdVec d M size rng gpPredict port i j =
      (List.range M).map
        (fun m => stdAtScen d gpPredict port i j (scenIdx M size rng i j m)) := by
  unfold stdVec
  dsimp only
  rw [testScMat_eq, List.map_map]
  rfl

theorem obsVec_eq (d : NotebookData) (M size : ℕ) (rng : ℕ → ℕ) (i j : ℕ) :
    obsVec d M size rng i j =
      (List.range M).map
        (fun m => d.mtm i j (scenIdx M size rng i j m)) := by
  unfold obsVec idxL
  rw [List.map_map]
  rfl

theorem foldl_prod3_split {α β γ : Type} (fa : α → ℕ → α) (fb : β → ℕ → β)
    (fc : γ → ℕ → γ) :
    ∀ (L : List ℕ) (a : α) (b : β) (c : γ),
      L.foldl (fun acc j => (fa acc.1 j, fb acc.2.1 j, fc acc.2.2 j)) (a, b, c) =
        (L.foldl fa a, L.foldl fb b, L.foldl fc c) := by
  intro L
  induction L with
  | nil => intro a b c; rfl
  | cons x t ih =>
    intro a b c
    simp only [List.foldl_cons]
    exact ih _ _ _

theorem zipAdd_map_same {α : Type} (g h : α → ℚ) :
    ∀ (l : List α), zipAdd (l.map g) (l.map h) = l.map (fun x => g x + h x) := by
  intro l
  induction l with
  | nil => rfl
  | cons x t ih =>
    show (g x + h x) :: zipAdd (t.map g) (t.map h) = _
    rw [ih]
    rfl

theorem replicate_eq_map_range (M : ℕ) (c : ℚ) :
    List.replicate M c = (List.range M).map (fun _ => c) := by
  rw [List.map_const', List.length_range]

theorem foldl_zipAdd (M : ℕ) (f : ℕ → ℕ → ℚ) :
    ∀ (L : List ℕ) (g : ℕ → ℚ),
      L.foldl (fun acc j => zipAdd acc ((List.range M).map (f j)))
          ((List.range M).map g) =
        (List.range M).map (fun m => g m + (L.map (fun j => f j m)).sum) := by
  intro L
  induction L with
  | nil =>
    intro g
    simp only [List.foldl_nil, List.map_nil, List.sum_nil]
    apply List.map_congr_left
    intro m _
    rw [add_zero]
  | cons a t ih =>
    intro g
    simp only [List.foldl_cons]
    rw [zipAdd_map_same]
    rw [ih (fun m => g m + f a m)]
    apply List.map_congr_left
    intro m _
    rw [List.map_cons, List.sum_cons]
    ring

theorem zipAdd_map_getD (M : ℕ) (g : ℕ → ℚ) (w : List ℚ) (hw : w.length = M) :
    zipAdd ((List.range M).map g) w =
      (List.range M).map (fun m => g m + w.getD m 0) := by
  apply List.ext_getElem
  · simp [zipAdd, hw]
  · intro n h1 h2
    have hn : n < M := by simpa [zipAdd, hw] using h1
    simp only [zipAdd, List.getElem_zipWith, List.getElem_map,
      List.getElem_range]
    rw [List.getD_eq_getElem _ _ (by omega)]

theorem foldl_zipAdd_vec (M : ℕ) (v : ℕ → List ℚ)
    (hv : ∀ j, (v j).length = M) :
    ∀ (L : List ℕ) (g : ℕ → ℚ),
      L.foldl (fun acc j => zipAdd acc (v j)) ((List.range M).map g) =
        (List.range M).map
          (fun m => g m + (L.map (fun j => (v j).getD m 0)).sum) := by
  intro L
  induction L with
  | nil =>
    intro g
    simp only [List.foldl_nil, List.map_nil, List.sum_nil]
    apply List.map_congr_left
    intro m _
    rw [add_zero]
  | cons a t ih =>
    intro g
    simp only [List.foldl_cons]
    rw [zipAdd_map_getD M g (v a) (hv a), ih (fun m => g m + (v a).getD m 0)]
    apply List.map_congr_left
    intro m _
    rw [List.map_cons, List.sum_cons]
    ring

theorem predVecW_eq (d : NotebookData) (M size : ℕ) (rng : ℕ → ℕ)
    (gpPredict : FitData → List ℚ → ℚ × ℚ) (port : ℕ → ℕ → InstrSlot)
    (i j : ℕ) :
    (predVec d M size rng gpPredict port i j).map
        (fun x => (port (d.portIdx j) i).w * x) =
      (List.range M).map (fun m => (port (d.portIdx j) i).w *
        predAtScen d gpPredict port i j (scenIdx M size rng i j m)) := by
  rw [predVec_eq, List.map_map]
  rfl

theorem stdVecW_eq (d : NotebookData) (M size : ℕ) (rng : ℕ → ℕ)
    (gpPredict : FitData → List ℚ → ℚ × ℚ) (port : ℕ → ℕ → InstrSlot)
    (i j : ℕ) :
    (stdVec d M size rng gpPredict port i j).map
        (fun x => ((port (d.portIdx j) i).w * x) ^ 2) =
      (List.range M).map (fun m => ((port (d.portIdx j) i).w *
        stdAtScen d gpPredict port i j (scenIdx M size rng i j m)) ^ 2) := by
  rw [stdVec_eq, List.map_map]
  rfl

theorem obsVecW_eq (d : NotebookData) (M size : ℕ) (rng : ℕ → ℕ)
    (port : ℕ → ℕ → InstrSlot) (i j : ℕ) :
    (obsVec d M size rng i j).map
        (fun x => (port (d.portIdx j) i).w * x) =
      (List.range M).map (fun m => (port (d.portIdx j) i).w *
        d.mtm i j (scenIdx M size rng i j m)) := by
  rw [obsVec_eq, List.map_map]
  rfl

theorem accumRows_comps (d : NotebookData) (M size : ℕ) (rng : ℕ → ℕ)
    (gpPredict : FitData → List ℚ → ℚ × ℚ) (port : ℕ → ℕ → InstrSlot)
    (i : ℕ) :
    ((accumRows d M size rng gpPredict port i).1 =
      (List.range M).map (fun m =>
        ((List.range size).map (fun j => (port (d.portIdx j) i).w *
          predAtScen d gpPredict port i j (scenIdx M size rng i j m))).sum)) ∧
    ((accumRows d M size rng gpPredict port i).2.1 =
      (List.range M).map (fun m =>
        ((List.range size).map (fun j => ((port (d.portIdx j) i).w *
          stdAtScen d gpPredict port i j (scenIdx M size rng i j m)) ^ 2)).sum)) ∧
    ((accumRows d M size rng gpPredict port i).2.2 =
      (List.range M).map (fun m =>
        ((List.range size).map (fun j => (port (d.portIdx j) i).w *
          d.mtm i j (scenIdx M size rng i j m))).sum)) := by
  have hsplit : accumRows d M size rng gpPredict port i =
      ((List.range size).foldl (fun acc j => zipAdd acc
          ((List.range M).map (fun m => (port (d.portIdx j) i).w *
            predAtScen d gpPredict port i j (scenIdx M size rng i j m))))
        (List.replicate M 0),
       (List.range size).foldl (fun acc j => zipAdd acc
          ((List.range M).map (fun m => ((port (d.portIdx j) i).w *
            stdAtScen d gpPredict port i j (scenIdx M size rng i j m)) ^ 2)))
        (List.replicate M 0),
       (List.range size).foldl (fun acc j => zipAdd acc
          ((List.range M).map (fun m => (port (d.portIdx j) i).w *
            d.mtm i j (scenIdx M size rng i j m))))
        (List.replicate M 0)) := by
    unfold accumRows
    dsimp only
    simp only [predVecW_eq, stdVecW_eq, obsVecW_eq]
    exact foldl_prod3_split
      (fun acc j => zipAdd acc ((List.range M).map
        (fun m => (port (d.portIdx j) i).w *
          predAtScen d gpPredict port i j (scenIdx M size rng i j m))))
      (fun acc j => zipAdd acc ((List.range M).map
        (fun m => ((port (d.portIdx j) i).w *
          stdAtScen d gpPredict port i j (scenIdx M size rng i j m)) ^ 2)))
      (fun acc j => zipAdd acc ((List.range M).map
        (fun m => (port (d.portIdx j) i).w *
          d.mtm i j (scenIdx M size rng i j m))))
      (List.range size) _ _ _
  rw [hsplit]
  dsimp only
  rw [replicate_eq_map_range]
  refine ⟨?_, ?_, ?_⟩ <;>
    (rw [foldl_zipAdd_vec M _ (fun j => by simp) (List.range size) (fun _ => 0)]
     apply List.map_congr_left
     intro m _
     rw [zero_add]
     apply congrArg
     apply List.map_congr_left
     intro j hj
     rw [getD_map_range' _ _ _ _ (List.mem_range.mp (by assumption))])

/-- C8. At every exposure date and instrument the simulation draws one
index set idx = np.random.choice(range(2*M), M) (here scenIdx) and uses
those same indices both for the GP inputs and for the analytical
prices: at each date i and path m, pi['exact'] is the weighted sum over
instruments of mtm[i][j, idx] and pi['tilde'] the weighted sum of the
GP predictions at exactly the same drawn scenarios. -/
theorem C8_shared_scenarios (d : NotebookData) (M nt size : ℕ)
    (rng : ℕ → ℕ) (gpPredict : FitData → List ℚ → ℚ × ℚ)
    (port : ℕ → ℕ → InstrSlot) (lam T : ℚ) (pyexp : ℚ → ℚ) :
    ∀ i < nt, ∀ m < M,
      (((phase1 d M nt size rng gpPredict port lam T pyexp).exactV i).getD m 0 =
        ((List.range size).map (fun j => (port (d.portIdx j) i).w *
          d.mtm i j (scenIdx M size rng i j m))).sum) ∧
      (((phase1 d M nt size rng gpPredict port lam T pyexp).tilde i).getD m 0 =
        ((List.range size).map (fun j => (port (d.portIdx j) i).w *
          predAtScen d gpPredict port i j (scenIdx M size rng i j m))).sum) := by
  intro i hi m hm
  obtain ⟨h1, h2, _, _⟩ :=
    phase1_rows d M nt size rng gpPredict port lam T pyexp i hi
  obtain ⟨hc1, _, hc3⟩ := accumRows_comps d M size rng gpPredict port i
  constructor
  · rw [h2, hc3, getD_map_range' _ _ _ _ hm]
  · rw [h1, hc1, getD_map_range' _ _ _ _ hm]

/-- Witness for C8 at concrete parameters M = nt = size = 1. -/
theorem C8_shared_scenarios_witness :
    (0 < 1 ∧ 0 < 1) ∧
    ((((phase1 wData 1 1 1 (fun _ => 0) (fun _ _ => (0, 0))
        (fun _ _ => initSlot) 0 0 (fun q => q)).exactV 0).getD 0 0 =
      ((List.range 1).map (fun j => ((fun _ _ => initSlot) (wData.portIdx j) 0).w *
        wData.mtm 0 j (scenIdx 1 1 (fun _ => 0) 0 j 0))).sum) ∧
    (((phase1 wData 1 1 1 (fun _ => 0) (fun _ _ => (0, 0))
        (fun _ _ => initSlot) 0 0 (fun q => q)).tilde 0).getD 0 0 =
      ((List.range 1).map (fun j => ((fun _ _ => initSlot) (wData.portIdx j) 0).w *
        predAtScen wData (fun _ _ => (0, 0)) (fun _ _ => initSlot) 0 j
          (scenIdx 1 1 (fun _ => 0) 0 j 0))).sum)) :=
  ⟨⟨Nat.zero_lt_one, Nat.zero_lt_one⟩,
   C8_shared_scenarios wData 1 1 1 (fun _ => 0) (fun _ _ => (0, 0))
     (fun _ _ => initSlot) 0 0 (fun q => q) 0 Nat.zero_lt_one 0 Nat.zero_lt_one⟩

/-- epe_gp = np.mean(pi_0['tilde'], axis=1): the reported GP EPE row. -/
def epeGP (pi : PiOut) (i : ℕ) : ℚ := npMean (pi.tilde i)

/-- epe_obs = np.mean(pi_0['exact'], axis=1): the reported analytical
EPE row. -/
def epeObs (pi : PiOut) (i : ℕ) : ℚ := npMean (pi.exactV i)

/-- The positive part max(V, 0) that the claimed EPE definition takes. -/
def posPartQ (x : ℚ) : ℚ := max x 0

/-- C1 (amended). The reported EPE values are the plain Monte Carlo
means over the M scenarios of the signed aggregated portfolio values:
no positive part max(V, 0) is applied, for the GP surrogate and the
analytical pricer alike, so reported EPE values can be negative. -/
theorem C1_epe_plain_mean (d : NotebookData) (M nt size : ℕ)
    (rng : ℕ → ℕ) (gpPredict : FitData → List ℚ → ℚ × ℚ)
    (port : ℕ → ℕ → InstrSlot) (lam T : ℚ) (pyexp : ℚ → ℚ) :
    ∀ i < nt,
      (epeObs (phase1 d M nt size rng gpPredict port lam T pyexp) i =
        ((List.range M).map (fun m =>
          ((List.range size).map (fun j => (port (d.portIdx j) i).w *
            d.mtm i j (scenIdx M size rng i j m))).sum)).sum / (M : ℚ)) ∧
      (epeGP (phase1 d M nt size rng gpPredict port lam T pyexp) i =
        ((List.range M).map (fun m =>
          ((List.range size).map (fun j => (port (d.portIdx j) i).w *
            predAtScen d gpPredict port i j (scenIdx M size rng i j m))).sum)).sum /
          (M : ℚ)) := by
  intro i hi
  obtain ⟨h1, h2, _, _⟩ :=
    phase1_rows d M nt size rng gpPredict port lam T pyexp i hi
  obtain ⟨hc1, _, hc3⟩ := accumRows_comps d M size rng gpPredict port i
  constructor
  · unfold epeObs npMean
    rw [h2, hc3]
    simp
  · unfold epeGP npMean
    rw [h1, hc1]
    simp

/-- Witness for the amended C1 at concrete parameters. -/
theorem C1_epe_plain_mean_witness :
    (0 < 1) ∧
    ((epeObs (phase1 wData 1 1 1 (fun _ => 0) (fun _ _ => (0, 0))
        (fun _ _ => initSlot) 0 0 (fun q => q)) 0 =
      ((List.range 1).map (fun m =>
        ((List.range 1).map (fun j => ((fun _ _ => initSlot) (wData.portIdx j) 0).w *
          wData.mtm 0 j (scenIdx 1 1 (fun _ => 0) 0 j m))).sum)).sum / ((1 : ℕ) : ℚ)) ∧
    (epeGP (phase1 wData 1 1 1 (fun _ => 0) (fun _ _ => (0, 0))
        (fun _ _ => initSlot) 0 0 (fun q => q)) 0 =
      ((List.range 1).map (fun m =>
        ((List.range 1).map (fun j => ((fun _ _ => initSlot) (wData.portIdx j) 0).w *
          predAtScen wData (fun _ _ => (0, 0)) (fun _ _ => initSlot) 0 j
            (scenIdx 1 1 (fun _ => 0) 0 j m))).sum)).sum / ((1 : ℕ) : ℚ))) :=
  ⟨Nat.zero_lt_one,
   C1_epe_plain_mean wData 1 1 1 (fun _ => 0) (fun _ _ => (0, 0))
     (fun _ _ => initSlot) 0 0 (fun q => q) 0 Nat.zero_lt_one⟩

/-- Market data making every simulated price -1. -/
def dNeg : NotebookData :=
  ⟨fun _ => 0, fun k => k, fun _ _ _ => 0, fun _ _ _ => 0, fun _ _ _ => -1⟩

/-- A slot whose target bounds are the constant -1, so every rescaled GP
prediction maps back to -1. -/
def slotNeg : InstrSlot := ⟨⟨[], []⟩, 1, [], [], [], [], -1, -1⟩

/-- The pi arrays of the exposure loop on the all-negative market. -/
def piNeg : PiOut :=
  phase1 dNeg 1 1 1 (fun _ => 0) (fun _ _ => (0, 0)) (fun _ _ => slotNeg)
    0 0 (fun q => q)

/-- C1 counterexample. On a portfolio whose simulated value is -1 in
every scenario, both reported EPE values equal -1: they are negative,
and they differ from the Monte Carlo mean of the positive part
max(V, 0) of the portfolio value (which is 0 here), refuting the claim
that the reported EPE is the mean positive exposure and non-negative. -/
theorem C1_counterexample :
    epeObs piNeg 0 = -1 ∧ epeGP piNeg 0 = -1 ∧
    ¬ (0 ≤ epeObs piNeg 0) ∧ ¬ (0 ≤ epeGP piNeg 0) ∧
    ((piNeg.exactV 0).map posPartQ).sum / (((piNeg.exactV 0).length : ℕ) : ℚ) = 0 ∧
    epeObs piNeg 0 ≠
      ((piNeg.exactV 0).map posPartQ).sum / (((piNeg.exactV 0).length : ℕ) : ℚ) := by
  obtain ⟨h1, h2, _, _⟩ :=
    phase1_rows dNeg 1 1 1 (fun _ => 0) (fun _ _ => (0, 0))
      (fun _ _ => slotNeg) 0 0 (fun q => q) 0 Nat.zero_lt_one
  obtain ⟨hc1, _, hc3⟩ :=
    accumRows_comps dNeg 1 1 (fun _ => 0) (fun _ _ => (0, 0))
      (fun _ _ => slotNeg) 0
  have hex : piNeg.exactV 0 = [-1] := by
    show (phase1 dNeg 1 1 1 (fun _ => 0) (fun _ _ => (0, 0))
      (fun _ _ => slotNeg) 0 0 (fun q => q)).exactV 0 = [-1]
    rw [h2, hc3]
    simp [dNeg, slotNeg, List.range_succ, List.range_zero]
  have htl : piNeg.tilde 0 = [-1] := by
    show (phase1 dNeg 1 1 1 (fun _ => 0) (fun _ _ => (0, 0))
      (fun _ _ => slotNeg) 0 0 (fun q => q)).tilde 0 = [-1]
    rw [h1, hc1]
    simp [dNeg, slotNeg, List.range_succ, List.range_zero, predAtScen]
  have hobs : epeObs piNeg 0 = -1 := by
    unfold epeObs npMean
    rw [hex]
    norm_num
  have hgp : epeGP piNeg 0 = -1 := by
    unfold epeGP npMean
    rw [htl]
    norm_num
  have hpos : ((piNeg.exactV 0).map posPartQ).sum /
      (((piNeg.exactV 0).length : ℕ) : ℚ) = 0 := by
    rw [hex]
    simp [posPartQ]
  refine ⟨hobs, hgp, ?_, ?_, hpos, ?_⟩
  · rw [hobs]; norm_num
  · rw [hgp]; norm_num
  · rw [hobs, hpos]; norm_num

theorem clip1_bounds (x lo hi : ℚ) (h : lo ≤ hi) :
    lo ≤ clip1 x lo hi ∧ clip1 x lo hi ≤ hi := by
  unfold clip1
  by_cases h1 : hi < x
  · rw [if_pos h1]; exact ⟨h, le_refl hi⟩
  · rw [if_neg h1]
    by_cases h2 : x < lo
    · rw [if_pos h2]; exact ⟨le_refl lo, h⟩
    · rw [if_neg h2]; exact ⟨le_of_not_lt h2, le_of_not_lt h1⟩

theorem listMin_le_listMax (l : List ℚ) (h : l ≠ []) :
    listMin l ≤ listMax l := by
  obtain ⟨x, hx⟩ := List.exists_mem_of_ne_nil l h
  exact le_trans (listMin_le_mem l x hx) (le_listMax_mem l x hx)

theorem colOf_selRows_mem (X : List (List ℚ)) (idx : List ℕ) (k : ℕ) :
    ∀ y ∈ colOf (selRows X idx) k, ∃ e ∈ idx, y = (X.getD e []).getD k 0 := by
  intro y hy
  unfold colOf selRows at hy
  rw [List.map_map] at hy
  obtain ⟨e, he, rfl⟩ := List.mem_map.mp hy
  exact ⟨e, he, rfl⟩

theorem colOf_selRows_ne (X : List (List ℚ)) (idx : List ℕ) (k : ℕ)
    (h : idx ≠ []) : colOf (selRows X idx) k ≠ [] := by
  unfold colOf selRows
  rw [List.map_map]
  simpa using h

/-- C4. In CVA_simulation, with the portfolio produced by the training
loop: after the clipping step every test coordinate lies between the
stored training-subset bounds min[i][k] and max[i][k]; those bounds lie
inside the full-sample rescaling bounds min_sc_x[k] and max_sc_x[k];
and therefore every rescaled test coordinate lies in [0, 1] whenever
max_sc_x[k] > min_sc_x[k]. -/
theorem C4_clip_rescale_bounds (d : NotebookData) (Mg : ℕ)
    (sampler : List (List ℚ) → ℕ → List ℕ) (Mt M size nt : ℕ)
    (rng : ℕ → ℕ)
    (hinj : ∀ a < 20, ∀ b < 20, d.portIdx a = d.portIdx b → a = b)
    (hsam : ∀ i < nt, ∀ j < 20, sampler (trainMat d Mg i j) Mt ≠ [] ∧
      ∀ e ∈ sampler (trainMat d Mg i j) Mt, e < (trainMat d Mg i j).length) :
    ∀ i < nt, ∀ j < 20, ∀ m < M, ∀ k < dimOf d i j,
      ((trainLoop d Mg sampler Mt nt (d.portIdx j) i).lo.getD k 0 ≤
        ((clipMat (testMat d M size rng i j)
            (trainLoop d Mg sampler Mt nt (d.portIdx j) i).lo
            (trainLoop d Mg sampler Mt nt (d.portIdx j) i).hi
            (dimOf d i j)).getD m []).getD k 0 ∧
       ((clipMat (testMat d M size rng i j)
            (trainLoop d Mg sampler Mt nt (d.portIdx j) i).lo
            (trainLoop d Mg sampler Mt nt (d.portIdx j) i).hi
            (dimOf d i j)).getD m []).getD k 0 ≤
        (trainLoop d Mg sampler Mt nt (d.portIdx j) i).hi.getD k 0) ∧
      ((trainLoop d Mg sampler Mt nt (d.portIdx j) i).loX.getD k 0 ≤
        (trainLoop d Mg sampler Mt nt (d.portIdx j) i).lo.getD k 0 ∧
       (trainLoop d Mg sampler Mt nt (d.portIdx j) i).hi.getD k 0 ≤
        (trainLoop d Mg sampler Mt nt (d.portIdx j) i).hiX.getD k 0) ∧
      ((trainLoop d Mg sampler Mt nt (d.portIdx j) i).loX.getD k 0 <
          (trainLoop d Mg sampler Mt nt (d.portIdx j) i).hiX.getD k 0 →
        0 ≤ ((testScMat d M size rng (trainLoop d Mg sampler Mt nt) i j).getD
              m []).getD k 0 ∧
        ((testScMat d M size rng (trainLoop d Mg sampler Mt nt) i j).getD
              m []).getD k 0 ≤ 1) := by
  intro i hi j hj m hm k hk
  have hslot := trainLoop_get d Mg sampler Mt hinj nt i hi j hj
  obtain ⟨hne, hval⟩ := hsam i hi j hj
  -- the stored bounds of the slot, as column extrema
  have hlo : (trainLoop d Mg sampler Mt nt (d.portIdx j) i).lo.getD k 0 =
      colMin (selRows (trainMat d Mg i j) (sampler (trainMat d Mg i j) Mt)) k := by
    rw [hslot]
    unfold fitSlot
    dsimp only
    rw [getD_map_range' _ _ _ _ hk]
  have hhi : (trainLoop d Mg sampler Mt nt (d.portIdx j) i).hi.getD k 0 =
      colMax (selRows (trainMat d Mg i j) (sampler (trainMat d Mg i j) Mt)) k := by
    rw [hslot]
    unfold fitSlot
    dsimp only
    rw [getD_map_range' _ _ _ _ hk]
  have hloX : (trainLoop d Mg sampler Mt nt (d.portIdx j) i).loX.getD k 0 =
      colMin (trainMat d Mg i j) k := by
    rw [hslot]
    unfold fitSlot
    dsimp only
    rw [getD_map_range' _ _ _ _ hk]
  have hhiX : (trainLoop d Mg sampler Mt nt (d.portIdx j) i).hiX.getD k 0 =
      colMax (trainMat d Mg i j) k := by
    rw [hslot]
    unfold fitSlot
    dsimp only
    rw [getD_map_range' _ _ _ _ hk]
  have hselne : colOf (selRows (trainMat d Mg i j)
      (sampler (trainMat d Mg i j) Mt)) k ≠ [] :=
    colOf_selRows_ne _ _ _ hne
  have hsubLo : colMin (trainMat d Mg i j) k ≤
      colMin (selRows (trainMat d Mg i j) (sampler (trainMat d Mg i j) Mt)) k := by
    apply le_listMin _ _ hselne
    intro y hy
    obtain ⟨e, he, rfl⟩ := colOf_selRows_mem _ _ _ y hy
    exact (colEntry_bounds _ e k (hval e he)).1
  have hsubHi : colMax (selRows (trainMat d Mg i j)
      (sampler (trainMat d Mg i j) Mt)) k ≤ colMax (trainMat d Mg i j) k := by
    apply listMax_le _ _ hselne
    intro y hy
    obtain ⟨e, he, rfl⟩ := colOf_selRows_mem _ _ _ y hy
    exact (colEntry_bounds _ e k (hval e he)).2
  have hlohi : (trainLoop d Mg sampler Mt nt (d.portIdx j) i).lo.getD k 0 ≤
      (trainLoop d Mg sampler Mt nt (d.portIdx j) i).hi.getD k 0 := by
    rw [hlo, hhi]
    exact listMin_le_listMax _ hselne
  -- the clipped entry
  have hXlen : (testMat d M size rng i j).length = M := by
    simp [testMat, idxL]
  have hrowm : (testMat d M size rng i j).getD m [] =
      factorsRow d i j (scenIdx M size rng i j m) := by
    unfold testMat
    rw [getD_map' [] 0 _ _ m (by simp [idxL]; omega)]
    unfold idxL
    rw [getD_map_range' _ _ _ _ hm]
  have hclip : ((clipMat (testMat d M size rng i j)
      (trainLoop d Mg sampler Mt nt (d.portIdx j) i).lo
      (trainLoop d Mg sampler Mt nt (d.portIdx j) i).hi
      (dimOf d i j)).getD m []).getD k 0 =
      clip1 ((factorsRow d i j (scenIdx M size rng i j m)).getD k 0)
        ((trainLoop d Mg sampler Mt nt (d.portIdx j) i).lo.getD k 0)
        ((trainLoop d Mg sampler Mt nt (d.portIdx j) i).hi.getD k 0) := by
    rw [clipMat_eq_map]
    rw [getD_map_rows _ _ _ (by rw [hXlen]; exact hm)]
    rw [hrowm]
    unfold clipRowFold
    exact clipRow_getD_lt _ _ _ _ _ hk (by rw [factorsRow_length]; exact hk)
  have hcb := clip1_bounds ((factorsRow d i j (scenIdx M size rng i j m)).getD k 0)
    ((trainLoop d Mg sampler Mt nt (d.portIdx j) i).lo.getD k 0)
    ((trainLoop d Mg sampler Mt nt (d.portIdx j) i).hi.getD k 0) hlohi
  refine ⟨⟨by rw [hclip]; exact hcb.1, by rw [hclip]; exact hcb.2⟩,
    ⟨by rw [hloX, hlo]; exact hsubLo, by rw [hhi, hhiX]; exact hsubHi⟩, ?_⟩
  intro hx
  have hsc : ((testScMat d M size rng (trainLoop d Mg sampler Mt nt) i j).getD
      m []).getD k 0 =
      (clip1 ((factorsRow d i j (scenIdx M size rng i j m)).getD k 0)
        ((trainLoop d Mg sampler Mt nt (d.portIdx j) i).lo.getD k 0)
        ((trainLoop d Mg sampler Mt nt (d.portIdx j) i).hi.getD k 0) -
        (trainLoop d Mg sampler Mt nt (d.portIdx j) i).loX.getD k 0) /
      ((trainLoop d Mg sampler Mt nt (d.portIdx j) i).hiX.getD k 0 -
        (trainLoop d Mg sampler Mt nt (d.portIdx j) i).loX.getD k 0) := by
    rw [testScMat_eq]
    rw [getD_map_range' _ _ _ _ hm]
    unfold testRowAt
    dsimp only
    rw [getD_map_range' _ _ _ _ hk]
  have hdpos : (0:ℚ) <
      (trainLoop d Mg sampler Mt nt (d.portIdx j) i).hiX.getD k 0 -
      (trainLoop d Mg sampler Mt nt (d.portIdx j) i).loX.getD k 0 :=
    sub_pos.mpr hx
  have hcLo : (trainLoop d Mg sampler Mt nt (d.portIdx j) i).loX.getD k 0 ≤
      clip1 ((factorsRow d i j (scenIdx M size rng i j m)).getD k 0)
        ((trainLoop d Mg sampler Mt nt (d.portIdx j) i).lo.getD k 0)
        ((trainLoop d Mg sampler Mt nt (d.portIdx j) i).hi.getD k 0) := by
    refine le_trans ?_ hcb.1
    rw [hloX, hlo]
    exact hsubLo
  have hcHi : clip1 ((factorsRow d i j (scenIdx M size rng i j m)).getD k 0)
        ((trainLoop d Mg sampler Mt nt (d.portIdx j) i).lo.getD k 0)
        ((trainLoop d Mg sampler Mt nt (d.portIdx j) i).hi.getD k 0) ≤
      (trainLoop d Mg sampler Mt nt (d.portIdx j) i).hiX.getD k 0 := by
    refine le_trans hcb.2 ?_
    rw [hhi, hhiX]
    exact hsubHi
  constructor
  · rw [hsc]
    exact div_nonneg (sub_nonneg.mpr hcLo) hdpos.le
  · rw [hsc]
    rw [div_le_one hdpos]
    exact sub_le_sub_right hcHi _

/-- Witness for C4 at wData with the constant row-0 sampler. -/
theorem C4_clip_rescale_bounds_witness :
    ((∀ a < 20, ∀ b < 20, wData.portIdx a = wData.portIdx b → a = b) ∧
     (∀ i < 1, ∀ j < 20, wSampler (trainMat wData 1 i j) 1 ≠ [] ∧
       ∀ e ∈ wSampler (trainMat wData 1 i j) 1,
         e < (trainMat wData 1 i j).length)) ∧
    (∀ i < 1, ∀ j < 20, ∀ m < 1, ∀ k < dimOf wData i j,
      ((trainLoop wData 1 wSampler 1 1 (wData.portIdx j) i).lo.getD k 0 ≤
        ((clipMat (testMat wData 1 1 (fun _ => 0) i j)
            (trainLoop wData 1 wSampler 1 1 (wData.portIdx j) i).lo
            (trainLoop wData 1 wSampler 1 1 (wData.portIdx j) i).hi
            (dimOf wData i j)).getD m []).getD k 0 ∧
       ((clipMat (testMat wData 1 1 (fun _ => 0) i j)
            (trainLoop wData 1 wSampler 1 1 (wData.portIdx j) i).lo
            (trainLoop wData 1 wSampler 1 1 (wData.portIdx j) i).hi
            (dimOf wData i j)).getD m []).getD k 0 ≤
        (trainLoop wData 1 wSampler 1 1 (wData.portIdx j) i).hi.getD k 0) ∧
      ((trainLoop wData 1 wSampler 1 1 (wData.portIdx j) i).loX.getD k 0 ≤
        (trainLoop wData 1 wSampler 1 1 (wData.portIdx j) i).lo.getD k 0 ∧
       (trainLoop wData 1 wSampler 1 1 (wData.portIdx j) i).hi.getD k 0 ≤
        (trainLoop wData 1 wSampler 1 1 (wData.portIdx j) i).hiX.getD k 0) ∧
      ((trainLoop wData 1 wSampler 1 1 (wData.portIdx j) i).loX.getD k 0 <
          (trainLoop wData 1 wSampler 1 1 (wData.portIdx j) i).hiX.getD k 0 →
        0 ≤ ((testScMat wData 1 1 (fun _ => 0) (trainLoop wData 1 wSampler 1 1)
              i j).getD m []).getD k 0 ∧
        ((testScMat wData 1 1 (fun _ => 0) (trainLoop wData 1 wSampler 1 1)
              i j).getD m []).getD k 0 ≤ 1)) :=
  ⟨⟨fun a _ b _ h => h,
    fun i _ j _ => ⟨by simp [wSampler], by
      intro e he
      simp only [wSampler, List.mem_singleton] at he
      subst he
      simp [trainMat]⟩⟩,
   C4_clip_rescale_bounds wData 1 wSampler 1 1 1 1 (fun _ => 0)
     (fun a _ b _ h => h)
     (fun i _ j _ => ⟨by simp [wSampler], by
       intro e he
       simp only [wSampler, List.mem_singleton] at he
       subst he
       simp [trainMat]⟩)⟩

/-! ## stratified_sampling over general row-major arrays (both branches)

stratSample2 above embeds the dim == 2 branch over pair rows, matching
the 2-column statement of the bucket-count claim.  The source function
as a whole also has the else branch taken for every other column count:
it filters on the first three columns (np.where raises IndexError when
the array has fewer than 3), truncates buckets larger than
num_samples = int(M / 4**dim), resamples smaller non-empty buckets with
replacement, and skips empty buckets (the source only counts and prints
them).  Both branches then run the overwrite idx[0:dim] =
np.argmin(ar, axis=0); idx[dim:2*dim] = np.argmax(ar, axis=0), which
numpy rejects with ValueError when fewer than 2*dim indices were
collected.  Here the whole function is embedded over row-major
List (List ℚ) arrays together with their column count dim. -/

/-- Quartile i of column c: q[i, c] of np.quantile(ar, quantiles, axis=0). -/
def qColG (ar : List (List ℚ)) (c i : ℕ) : ℚ :=
  npQuantile (colOf ar c) (quartiles.getD i 0)

/-- The np.where filter of the dim == 2 branch over row-major rows. -/
def bucketIdxG (ar : List (List ℚ)) (i j : ℕ) : List ℕ :=
  (List.range ar.length).filter (fun m =>
    let r := ar.getD m []
    decide (qColG ar 0 i ≤ r.getD 0 0) && decide (r.getD 0 0 ≤ qColG ar 0 (i + 1)) &&
    decide (qColG ar 1 j ≤ r.getD 1 0) && decide (r.getD 1 0 ≤ qColG ar 1 (j + 1)))

/-- The np.where filter of the else branch (first three columns). -/
def bucketIdx3 (ar : List (List ℚ)) (i j k : ℕ) : List ℕ :=
  (List.range ar.length).filter (fun m =>
    let r := ar.getD m []
    decide (qColG ar 0 i ≤ r.getD 0 0) && decide (r.getD 0 0 ≤ qColG ar 0 (i + 1)) &&
    decide (qColG ar 1 j ≤ r.getD 1 0) && decide (r.getD 1 0 ≤ qColG ar 1 (j + 1)) &&
    decide (qColG ar 2 k ≤ r.getD 2 0) && decide (r.getD 2 0 ≤ qColG ar 2 (k + 1)))

/-- One bucket's contribution in the else branch: truncate when larger
than ns, resample with replacement when non-empty, and contribute
nothing for an empty bucket. -/
def segment3 (ns : ℕ) (rng : ℕ → ℕ) (c : ℕ) (bkt : List ℕ) : List ℕ :=
  if ns < bkt.length then bkt.take ns
  else if 0 < bkt.length then npChoice bkt ns rng c
  else []

/-- The dim == 2 branch's 16 per-bucket contributions over row-major
rows (an empty bucket raises in np.random.choice, as in stratSegs). -/
def stratSegsG (ar : List (List ℚ)) (M : ℕ) (rng : ℕ → ℕ) :
    List (Except PyErr (List ℕ)) :=
  let ns := M / 16
  (List.range 4).bind (fun i => (List.range 4).map (fun j =>
    segmentFor ns rng ((4 * i + j) * ns) (bucketIdxG ar i j)))

/-- The else branch's np.append accumulation over its 64 buckets. -/
def stratSegs3 (ar : List (List ℚ)) (dim M : ℕ) (rng : ℕ → ℕ) : List ℕ :=
  let ns := M / 4 ^ dim
  ((List.range 4).bind (fun i => (List.range 4).bind (fun j =>
    (List.range 4).map (fun k =>
      segment3 ns rng ((16 * i + 4 * j + k) * ns) (bucketIdx3 ar i j k))))).join

/-- One column's share of the final overwrite: position p receives the
argmin of column p and position dim + p its argmax.  All 2*dim written
positions are distinct, so the fold below equals the source's two bulk
slice assignments. -/
def minmaxStep (ar : List (List ℚ)) (dim : ℕ) (l : List ℕ) (p : ℕ) : List ℕ :=
  (l.set p (argminL (colOf ar p))).set (dim + p) (argmaxL (colOf ar p))

/-- idx[0:dim] = np.argmin(ar, axis=0); idx[dim:2*dim] = np.argmax(ar,
axis=0): numpy raises ValueError when fewer than 2*dim indices exist. -/
def ensureMinMaxG (ar : List (List ℚ)) (dim : ℕ) (idx : List ℕ) :
    Except PyErr (List ℕ) :=
  if idx.length < 2 * dim then .error .valueError
  else .ok ((List.range dim).foldl (minmaxStep ar dim) idx)

/-- stratified_sampling(ar, M) for an arbitrary column count dim. -/
def stratSampleGen (ar : List (List ℚ)) (dim M : ℕ) (rng : ℕ → ℕ) :
    Except PyErr (List ℕ) :=
  if dim = 2 then
    match collectSegs (stratSegsG ar M rng) with
    | .error e => .error e
    | .ok idx => ensureMinMaxG ar dim idx
  else if dim < 3 then .error .indexError
  else ensureMinMaxG ar dim (stratSegs3 ar dim M rng)

theorem minmaxFold_length (ar : List (List ℚ)) (dim : ℕ) :
    ∀ (L : List ℕ) (idx : List ℕ),
      (L.foldl (minmaxStep ar dim) idx).length = idx.length := by
  intro L
  induction L with
  | nil => intro idx; rfl
  | cons a t ih =>
    intro idx
    simp only [List.foldl_cons]
    rw [ih]
    unfold minmaxStep
    simp [List.length_set]

theorem minmaxFold_getD (ar : List (List ℚ)) (dim : ℕ) :
    ∀ (n : ℕ), n ≤ dim → ∀ (idx : List ℕ), 2 * dim ≤ idx.length →
      ∀ p < n,
        (((List.range n).foldl (minmaxStep ar dim) idx).getD p 0 =
          argminL (colOf ar p)) ∧
        (((List.range n).foldl (minmaxStep ar dim) idx).getD (dim + p) 0 =
          argmaxL (colOf ar p)) := by
  intro n
  induction n with
  | zero => intro _ idx _ p hp; omega
  | succ c ih =>
    intro hc idx hlen p hp
    rw [@List.range_succ c, List.foldl_append, List.foldl_cons, List.foldl_nil]
    have hFlen : ((List.range c).foldl (minmaxStep ar dim) idx).length =
        idx.length := minmaxFold_length ar dim (List.range c) idx
    have hstep : minmaxStep ar dim ((List.range c).foldl (minmaxStep ar dim) idx) c =
        (((List.range c).foldl (minmaxStep ar dim) idx).set c
          (argminL (colOf ar c))).set (dim + c) (argmaxL (colOf ar c)) := rfl
    rw [hstep]
    by_cases hpc : p = c
    · subst hpc
      constructor
      · rw [List.getD_set_ne' _ (dim + p) p _ _ (by omega)]
        exact List.getD_set_eq' _ p _ _ (by rw [hFlen]; omega)
      · exact List.getD_set_eq' _ (dim + p) _ _
          (by simp only [List.length_set]; rw [hFlen]; omega)
    · have hplt : p < c := by omega
      obtain ⟨ha, hb⟩ := ih (by omega) idx hlen p hplt
      constructor
      · rw [List.getD_set_ne' _ (dim + c) p _ _ (by omega),
          List.getD_set_ne' _ c p _ _ (by omega)]
        exact ha
      · rw [List.getD_set_ne' _ (dim + c) (dim + p) _ _ (by omega),
          List.getD_set_ne' _ c (dim + p) _ _ (by omega)]
        exact hb

/-- C9. For every input array with dim columns for which
stratified_sampling returns an index array of length at least 2*dim
(through either branch of the function), the returned array's first dim
entries are the per-column argmins and its next dim entries the
per-column argmaxes, so the returned training index set contains, for
every input dimension, a row attaining that dimension's minimum and a
row attaining its maximum. -/
theorem C9_minmax_overwrite (ar : List (List ℚ)) (dim M : ℕ)
    (rng : ℕ → ℕ) (l : List ℕ) (hdim : ∀ r ∈ ar, r.length = dim)
    (hok : stratSampleGen ar dim M rng = .ok l)
    (hlen : 2 * dim ≤ l.length) (har : ar ≠ []) :
    (∀ p < dim, l.getD p 0 = argminL (colOf ar p) ∧
      l.getD (dim + p) 0 = argmaxL (colOf ar p)) ∧
    (∀ p < dim,
      (∃ e ∈ l, (ar.getD e []).getD p 0 = listMin (colOf ar p)) ∧
      (∃ e ∈ l, (ar.getD e []).getD p 0 = listMax (colOf ar p))) := by
  have hex : ∃ idx, ensureMinMaxG ar dim idx = .ok l := by
    unfold stratSampleGen at hok
    by_cases h2 : dim = 2
    · rw [if_pos h2] at hok
      cases hcs : collectSegs (stratSegsG ar M rng) with
      | error e => rw [hcs] at hok; cases hok
      | ok idx =>
        rw [hcs] at hok
        exact ⟨idx, hok⟩
    · rw [if_neg h2] at hok
      by_cases h3 : dim < 3
      · rw [if_pos h3] at hok; cases hok
      · rw [if_neg h3] at hok
        exact ⟨_, hok⟩
  obtain ⟨idx, hens⟩ := hex
  unfold ensureMinMaxG at hens
  by_cases hl : idx.length < 2 * dim
  · rw [if_pos hl] at hens; cases hens
  rw [if_neg hl] at hens
  have hleq := Except.ok.inj hens
  have hlenIdx : 2 * dim ≤ idx.length := le_of_not_lt hl
  have hpos : ∀ p < dim, l.getD p 0 = argminL (colOf ar p) ∧
      l.getD (dim + p) 0 = argmaxL (colOf ar p) := by
    intro p hp
    rw [← hleq]
    exact minmaxFold_getD ar dim dim (le_refl dim) idx hlenIdx p hp
  refine ⟨hpos, ?_⟩
  intro p hp
  have hcol_ne : colOf ar p ≠ [] := by
    unfold colOf
    simpa using har
  have hminlt : argminL (colOf ar p) < ar.length := by
    have := argminL_lt _ hcol_ne
    simpa [colOf] using this
  have hmaxlt : argmaxL (colOf ar p) < ar.length := by
    have := argmaxL_lt _ hcol_ne
    simpa [colOf] using this
  have hmem_min : l.getD p 0 ∈ l := by
    have hpl : p < l.length := by omega
    rw [List.getD_eq_getElem _ _ hpl]
    exact List.getElem_mem _
  have hmem_max : l.getD (dim + p) 0 ∈ l := by
    have hpl : dim + p < l.length := by omega
    rw [List.getD_eq_getElem _ _ hpl]
    exact List.getElem_mem _
  have hentry : ∀ e, e < ar.length →
      (colOf ar p).getD e 0 = (ar.getD e []).getD p 0 := by
    intro e he
    unfold colOf
    rw [getD_map' 0 [] _ _ e he]
  constructor
  · exact ⟨l.getD p 0, hmem_min, by
      rw [(hpos p hp).1, ← hentry _ hminlt]
      exact argminL_getD _ hcol_ne⟩
  · exact ⟨l.getD (dim + p) 0, hmem_max, by
      rw [(hpos p hp).2, ← hentry _ hmaxlt]
      exact argmaxL_getD _ hcol_ne⟩

theorem bucketIdx3_single (a b c : ℚ) (i j k : ℕ) :
    bucketIdx3 [[a, b, c]] i j k = [0] := by
  simp [bucketIdx3, qColG, colOf, npQuantile_single, List.range_succ,
    List.range_zero, List.filter_cons, List.filter_nil]

/-- The 64-entry index list returned in the dim = 3 witness run. -/
def z64 : List ℕ := [0, 0, 0, 0, 0, 0, 0, 0, 0, 0, 0, 0, 0, 0, 0, 0, 0, 0, 0, 0, 0, 0, 0, 0, 0, 0, 0, 0, 0, 0, 0, 0, 0, 0, 0, 0, 0, 0, 0, 0, 0, 0, 0, 0, 0, 0, 0, 0, 0, 0, 0, 0, 0, 0, 0, 0, 0, 0, 0, 0, 0, 0, 0, 0]

theorem stratSampleGen_single3 :
    stratSampleGen [[(1:ℚ), 2, 3]] 3 64 (fun _ => 0) = .ok z64 := by
  have hb : ∀ i j k : ℕ, bucketIdx3 [[(1:ℚ), 2, 3]] i j k = [0] :=
    fun i j k => bucketIdx3_single 1 2 3 i j k
  simp [stratSampleGen, stratSegs3, hb, segment3, npChoice, ensureMinMaxG,
    minmaxStep, argminL, argmaxL, colOf, z64, List.range_succ]

/-- Witness for C9 at a one-row 3-column array (the else branch of the
source, which the dim = 2 model does not reach), M = 64. -/
theorem C9_minmax_overwrite_witness :
    ((∀ r ∈ ([[(1:ℚ), 2, 3]] : List (List ℚ)), r.length = 3) ∧
     stratSampleGen [[(1:ℚ), 2, 3]] 3 64 (fun _ => 0) = .ok z64 ∧
     2 * 3 ≤ z64.length ∧ ([[(1:ℚ), 2, 3]] : List (List ℚ)) ≠ []) ∧
    ((∀ p < 3, z64.getD p 0 = argminL (colOf [[(1:ℚ), 2, 3]] p) ∧
        z64.getD (3 + p) 0 = argmaxL (colOf [[(1:ℚ), 2, 3]] p)) ∧
     (∀ p < 3,
        (∃ e ∈ z64, (([[(1:ℚ), 2, 3]] : List (List ℚ)).getD e []).getD p 0 =
          listMin (colOf [[(1:ℚ), 2, 3]] p)) ∧
        (∃ e ∈ z64, (([[(1:ℚ), 2, 3]] : List (List ℚ)).getD e []).getD p 0 =
          listMax (colOf [[(1:ℚ), 2, 3]] p)))) :=
  ⟨⟨by simp, stratSampleGen_single3, by decide, by simp⟩,
   C9_minmax_overwrite [[(1:ℚ), 2, 3]] 3 64 (fun _ => 0) z64
     (by simp) stratSampleGen_single3 (by decide) (by simp)⟩
